import Mathlib

/-!
Verification development for the ftlengine container orchestrator.

The Python source is shallowly embedded: Python dicts become
insertion-ordered association lists over `String` keys, Python sets become
lists whose iteration order is fixed by the embedding (all proved
conclusions are order-independent), container and instance objects become
Lean structures, and methods become total functions returning
`Except String _` where the source can raise.
-/

/-! ## Association list helpers (Python dict semantics) -/

def lookupA {α : Type} (l : List (String × α)) (k : String) : Option α :=
  match l with
  | [] => none
  | p :: rest => if p.1 == k then some p.2 else lookupA rest k

def insertA {α : Type} (l : List (String × α)) (k : String) (v : α) : List (String × α) :=
  match l with
  | [] => [(k, v)]
  | p :: rest => if p.1 == k then (k, v) :: rest else p :: insertA rest k v

def eraseA {α : Type} (l : List (String × α)) (k : String) : List (String × α) :=
  l.filter (fun p => p.1 != k)

def keysA {α : Type} (l : List (String × α)) : List String :=
  l.map (fun p => p.1)

/-! ## String ordering used to model the `sorted(mapping.items())` call -/

def strLtChars : List Char → List Char → Bool
  | [], [] => false
  | [], _ :: _ => true
  | _ :: _, [] => false
  | a :: as, b :: bs =>
    if a.toNat < b.toNat then true
    else if b.toNat < a.toNat then false
    else strLtChars as bs

def strLt (a b : String) : Bool :=
  strLtChars a.data b.data

def insertSorted {α : Type} (lt : α → α → Bool) (x : α) : List α → List α
  | [] => [x]
  | y :: ys => if lt x y then x :: y :: ys else y :: insertSorted lt x ys

def sortAssoc {α : Type} (l : List (String × α)) : List (String × α) :=
  l.foldr (insertSorted (fun p q => strLt p.1 q.1)) []

/-! ## `dependency_sort` (src/utils/sorting.py)

Phase 1 (the `while pending` loop) explores the graph from the initial
nodes, recording `mapping[current] = dependencies(current)`; a node is
queued only if it is in neither `pending` nor `mapping`.  The recursion is
fuelled; all theorems take successful runs, and witnesses evaluate
concrete runs.  Phase 2 (the `while mapping` loop) repeatedly appends to
`result` every mapping entry whose dependencies are already in `result`,
iterating the entries in sorted key order, and raises the circular
dependency error when a full pass makes no progress. -/

def collectMapping (deps : String → List String) :
    Nat → List String → List (String × List String) → Option (List (String × List String))
  | _, [], mapping => some mapping
  | 0, _ :: _, _ => none
  | fuel + 1, current :: rest, mapping =>
    let ds := deps current
    let mapping1 := insertA mapping current ds
    let pending1 :=
      ds.foldl (fun p d => if p.contains d || (lookupA mapping1 d).isSome then p else p ++ [d]) rest
    collectMapping deps fuel pending1 mapping1

def passStep (acc : List String × List (String × List String))
    (entry : String × List String) : List String × List (String × List String) :=
  if entry.2.all (fun d => acc.1.contains d) then
    (acc.1 ++ [entry.1], eraseA acc.2 entry.1)
  else acc

def sortPass (snapshot : List (String × List String))
    (start : List String × List (String × List String)) :
    List String × List (String × List String) :=
  snapshot.foldl passStep start

def sortLoop : Nat → List (String × List String) → List String → Except String (List String)
  | _, [], result => .ok result
  | 0, _ :: _, _ => .error "fuel exhausted"
  | fuel + 1, mapping, result =>
    let out := sortPass (sortAssoc mapping) (result, mapping)
    if out.2.length = mapping.length then .error "Circular dependency detected"
    else sortLoop fuel out.2 out.1

def dependency_sort (fuel : Nat) (initial : List String) (deps : String → List String) :
    Except String (List String) :=
  match collectMapping deps fuel initial [] with
  | none => .error "fuel exhausted"
  | some m => sortLoop (m.length + 1) m []

example :
    dependency_sort 10 ["A"]
      (fun c => if c == "A" then ["B"] else if c == "B" then ["C"] else []) =
      .ok ["C", "B", "A"] := rfl

example :
    dependency_sort 10 ["A"]
      (fun c => if c == "A" then ["B"] else if c == "B" then ["A"] else []) =
      .error "Circular dependency detected" := rfl

/-! ## Container instances and formations (src/containers/formation.py)

`ContainerInstance` fields follow the attrs class: links map alias to the
linked instance, which Python compares with name-based `__eq__`, so links
are embedded as alias-to-runtime-name pairs; `devmodes`, `ports` and
`environment` are dict/set valued and are embedded as lists; `foreground`
models Python truthiness of the flag; `formation` models whether the
back-reference is set (None versus a formation).  A formation is its
`container_instances` dict: runtime-name keyed, insertion ordered. -/

structure ContainerInstance where
  name : String
  container : String
  imageId : Option String
  links : List (String × String)
  devmodes : List String
  ports : List (Nat × Nat)
  environment : List (String × String)
  memLimit : Nat
  command : Option (List String)
  foreground : Bool
  formation : Bool
deriving Repr, DecidableEq

def different_from (x y : ContainerInstance) : Bool :=
  decide (x.name ≠ y.name) ||
  decide (x.container ≠ y.container) ||
  decide (x.imageId ≠ y.imageId) ||
  decide (x.links ≠ y.links) ||
  decide (x.devmodes ≠ y.devmodes) ||
  decide (x.ports ≠ y.ports) ||
  decide (x.environment ≠ y.environment) ||
  decide (x.memLimit ≠ y.memLimit) ||
  decide (x.command ≠ y.command) ||
  y.foreground ||
  x.foreground

/-- `ContainerInstance.__eq__`: comparison is by runtime name only. -/
def pyEq (x y : ContainerInstance) : Bool :=
  x.name == y.name

/-- `ContainerInstance.__hash__`: `hash(self.name)`. -/
def pyHash (x : ContainerInstance) : UInt64 :=
  String.hash x.name

abbrev Formation : Type :=
  List (String × ContainerInstance)

/-- `ContainerFormation.__contains__`: `key.name in self.container_instances`. -/
def formationContains (f : Formation) (inst : ContainerInstance) : Bool :=
  (lookupA f inst.name).isSome

/-- `ContainerFormation.has_container`. -/
def has_container (f : Formation) (c : String) : Bool :=
  f.any (fun p => p.2.container == c)

/-- `ContainerFormation.add_instance`: asserts the back-reference is unset,
stores the instance under its runtime name and sets the back-reference. -/
def add_instance (f : Formation) (inst : ContainerInstance) : Except String Formation :=
  if inst.formation then .error "assert instance.formation is None"
  else .ok (insertA f inst.name { inst with formation := true })

/-! ## Container graph (src/containers/graph.py)

Containers are identified by name.  `rdeps` is the `_dependencies` dict
(container name to the names in its dependency set), `bdeps` is
`_build_dependencies`, and `opts` records the `devmodes` entry of the
per-container options dict (the only option `add_container` reads). -/

structure ContainerDef where
  name : String
  links : List (String × Bool)
  imageTag : String
  foreground : Bool
  environment : List (String × String)
  memLimit : Nat
  ports : List (Nat × Nat)
  buildParentInPfx : Bool
  buildParent : String
deriving Repr, DecidableEq

structure ContainerGraph where
  pfx : String
  containers : List (String × ContainerDef)
  rdeps : List (String × List String)
  bdeps : List (String × String)
  opts : List (String × List String)
deriving Repr, DecidableEq

/-- `ContainerGraph.dependencies`: `self._dependencies.get(container, set())`. -/
def dependenciesOf (g : ContainerGraph) (c : String) : List String :=
  (lookupA g.rdeps c).getD []

/-- `ContainerGraph.dependents`: all keys of `_dependencies` whose
dependency set contains `c`. -/
def dependentsOf (g : ContainerGraph) (c : String) : List String :=
  (g.rdeps.filter (fun p => p.2.contains c)).map (fun p => p.1)

/-- `ContainerGraph.discard_dependency`. -/
def discard_dependency (g : ContainerGraph) (c d : String) : ContainerGraph :=
  match lookupA g.rdeps c with
  | none => g
  | some l => { g with rdeps := insertA g.rdeps c (l.erase d) }

/-- One step of the edge relation underlying `_dependencies`:
`DepEdge g a b` holds when `a` names `b` in its dependency set, that is,
`a` directly depends on `b`. -/
def DepEdge (g : ContainerGraph) (a b : String) : Prop :=
  b ∈ dependenciesOf g a

/-- `b` transitively (in one or more steps) depends on `a`. -/
def TransDepends (g : ContainerGraph) (a b : String) : Prop :=
  Relation.TransGen (fun x y => x ∈ dependenciesOf g y) a b

/-- `ContainerFormation.remove_instance`.  Returns the mutated graph (for
the `ignore_dependencies` branch), the new instance dict, and the
runtime names in deletion order.  The final unconditional
`del self.container_instances[instance.name]` raises `KeyError` when the
entry is already gone, which the embedding surfaces as an error. -/
def riStep (dd : List String) (instContainer : String) (ignoreDeps : Bool)
    (acc : ContainerGraph × Formation × List String) (p : String × ContainerInstance) :
    ContainerGraph × Formation × List String :=
  if dd.contains p.2.container && p.2.formation then
    if ignoreDeps then
      (discard_dependency acc.1 p.2.container instContainer, acc.2.1, acc.2.2)
    else
      (acc.1, eraseA acc.2.1 p.1, acc.2.2 ++ [p.1])
  else acc

def remove_instance (fuel : Nat) (g : ContainerGraph) (f : Formation)
    (inst : ContainerInstance) (ignoreDeps : Bool) :
    Except String (ContainerGraph × Formation × List String) := do
  let sorted ← dependency_sort fuel [inst.container] (dependentsOf g)
  let out := f.foldl (riStep sorted.dropLast inst.container ignoreDeps) (g, f, [])
  if (lookupA out.2.1 inst.name).isSome then
    .ok (out.1, eraseA out.2.1 inst.name, out.2.2 ++ [inst.name])
  else
    .error "KeyError"

/-! ## Host image lookup (src/docker/images.py, `image_version`) -/

structure HostImages where
  images : List (String × List (String × String))
deriving Repr, DecidableEq

/-- `ImageRepository.image_version`: the tag `local` is coerced to
`latest`; a missing image raises `ImageNotFoundException` unless
`ignore_not_found` is set (then `None` is returned). -/
def image_version (h : HostImages) (imageName imageTag : String) (ignoreNotFound : Bool) :
    Except String (Option String) :=
  let t := if imageTag == "local" then "latest" else imageTag
  match (lookupA h.images imageName).bind (fun m => lookupA m t) with
  | some digest => .ok (some digest)
  | none =>
    if ignoreNotFound then .ok none
    else .error ("Cannot find image " ++ imageName ++ ":" ++ t)

/-- `ContainerGraph.options(c).get("devmodes", set())`. -/
def graphDevmodes (g : ContainerGraph) (c : String) : List String :=
  (lookupA g.opts c).getD []

/-- The image name `{graph_prefix}/{name}` computed in `Container.load`. -/
def imageNameOf (g : ContainerGraph) (c : ContainerDef) : String :=
  g.pfx ++ "/" ++ c.name

/-- The per-ancestor body of the `add_container` dependency loop: find an
instance running the dependency (`for instance in self: ... break`) or
recursively create one; record an alias link when the dependency is
direct. -/
def acStep (directDeps : List String)
    (recur : Formation → String → Except String (Formation × ContainerInstance))
    (acc : Formation × List (String × String)) (dep : String) :
    Except String (Formation × List (String × String)) := do
  match acc.1.find? (fun p => p.2.container == dep) with
  | some p =>
    if directDeps.contains dep then
      pure (acc.1, acc.2 ++ [(dep, p.2.name)])
    else
      pure acc
  | none => do
    let out ← recur acc.1 dep
    if directDeps.contains dep then
      pure (out.1, acc.2 ++ [(dep, out.2.name)])
    else
      pure (out.1, acc.2)

/-- `ContainerFormation.add_container`.  Recursion on missing dependency
instances is fuelled; the body follows the source: topologically sort the
dependency ancestry, ensure an instance exists for every ancestor
(creating one recursively if not), collect alias links for the direct
dependencies, look up the image, construct the instance named
`{prefix}.{container}.1` and add it. -/
def add_container (host : HostImages) (g : ContainerGraph) :
    Nat → Formation → String → Bool → Except String (Formation × ContainerInstance)
  | 0, _, _, _ => .error "fuel exhausted"
  | fuel + 1, f, cname, ignoreDeps => do
    let c ← match lookupA g.containers cname with
      | some c => Except.ok c
      | none => Except.error ("KeyError " ++ cname)
    let devmodes := graphDevmodes g cname
    let sorted ← dependency_sort (fuel + 1) [cname] (dependenciesOf g)
    let ancestry := sorted.dropLast
    let directDeps := dependenciesOf g cname
    let fl ← ancestry.foldlM
      (acStep directDeps (fun f1 dep => add_container host g fuel f1 dep ignoreDeps))
      (f, [])
    let imageId ← image_version host (imageNameOf g c) c.imageTag ignoreDeps
    let inst : ContainerInstance :=
      { name := g.pfx ++ "." ++ cname ++ ".1"
        container := cname
        imageId := imageId
        links := fl.2
        devmodes := devmodes
        ports := c.ports
        environment := c.environment
        memLimit := c.memLimit
        command := none
        foreground := c.foreground
        formation := false }
    let f2 ← add_instance fl.1 inst
    pure (f2, { inst with formation := true })

/-! ## FormationRunner.parallel_execute (src/docker/runner.py)

The driver loop is embedded as a step function over the loop state.
Worker threads are abstracted by an oracle giving, per iteration, the set
of processing instances whose thread is no longer alive.  The deadlock
error carries the queued names the source joins into its message, in
queue order. -/

structure ExecState where
  queued : List String
  processing : List String
  done : List String
  idle : Nat
deriving Repr, DecidableEq

inductive ExecOut where
  | finished (done : List String)
  | running (s : ExecState)
  | deadlock (stuck : List String)
deriving Repr, DecidableEq

/-- One iteration of the `while queued or processing` body: the spawn
scan, the completion scan (driven by `finishedNow`), the deadlock check
(`idle_iterations > 10` with a non-empty queue and nothing processing)
and the final `idle_iterations += 1`. -/
def peStep (ready : String → List String → Bool) (finishedNow : List String)
    (s : ExecState) : ExecOut :=
  if s.queued.isEmpty && s.processing.isEmpty then
    .finished s.done
  else
    let spawned := s.queued.filter (fun i => ready i s.done)
    let queued1 := s.queued.filter (fun i => !(ready i s.done))
    let processing1 := s.processing ++ spawned
    let idle1 := if spawned.isEmpty then s.idle else 0
    let doneNow := processing1.filter (fun i => finishedNow.contains i)
    let processing2 := processing1.filter (fun i => !(finishedNow.contains i))
    let done2 := s.done ++ doneNow
    let idle2 := if doneNow.isEmpty then idle1 else 0
    if decide (idle2 > 10) && !(queued1.isEmpty) && processing2.isEmpty then
      .deadlock queued1
    else
      .running { queued := queued1, processing := processing2, done := done2, idle := idle2 + 1 }

/-- Iterate `peStep` for `n` iterations (oracle indexed by iteration). -/
def peRun (ready : String → List String → Bool) (oracle : Nat → List String) :
    Nat → ExecState → ExecOut
  | 0, s => .running s
  | n + 1, s =>
    match peStep ready (oracle 0) s with
    | .running s1 => peRun ready (fun k => oracle (k + 1)) n s1
    | out => out

/-! ## FormationRunner.run delta computation (src/docker/runner.py lines 49-63) -/

/-- First delta loop: a current instance not contained (by runtime name)
in the desired formation is queued for stopping. -/
def stopScanStep (desired : Formation) (acc : List ContainerInstance)
    (p : String × ContainerInstance) : List ContainerInstance :=
  if (lookupA desired p.1).isSome then acc else acc ++ [p.2]

/-- Second delta loop: a desired instance not contained in the current
formation is started; one contained but `different_from` its counterpart
is both stopped and started. -/
def startScanStep (current : Formation)
    (acc : List ContainerInstance × List ContainerInstance)
    (p : String × ContainerInstance) : List ContainerInstance × List ContainerInstance :=
  match lookupA current p.1 with
  | none => (acc.1, acc.2 ++ [p.2])
  | some cur =>
    if different_from p.2 cur then (acc.1 ++ [p.2], acc.2 ++ [p.2]) else acc

/-- The stop/start delta of `FormationRunner.run`: instances of the
current formation missing (by runtime name) from the desired one are
stopped; desired instances missing from the current one are started;
instances present in both but `different_from` their counterpart are both
stopped and started. -/
def runDelta (desired current : Formation) : List ContainerInstance × List ContainerInstance :=
  desired.foldl (startScanStep current) (current.foldl (stopScanStep desired) [], [])

/-! ## Seedship boot probe (src/docker/seedship.py)

The filesystem of the probed container is a partial map from path to raw
contents; `elapsedOver` models `time.time() - self._first_try` exceeding
`NO_SEEDSHIP_TIMEOUT`; `parseMsg` abstracts the `json.loads` of the last
status line, returning the extracted `message` when parsing succeeds. -/

def pyStrip (s : String) : String :=
  ⟨((s.data.dropWhile Char.isWhitespace).reverse.dropWhile Char.isWhitespace).reverse⟩

def pyRstripColon (s : String) : String :=
  ⟨(s.data.reverse.dropWhile (fun c => c == ':')).reverse⟩

structure ShipEnv where
  containerPresent : Bool
  containerRunning : Bool
  files : List (String × String)
  elapsedOver : Bool
  parseMsg : String → Option String

/-- `Seedship._read_file`: returns the stripped contents, or the default
(`none`) when the file or the container is missing or the stripped
contents are empty (`contents or default`). -/
def readShipFile (env : ShipEnv) (path : String) : Option String :=
  match lookupA env.files path with
  | none => none
  | some c =>
    let t := pyStrip c
    if t == "" then none else some t

/-- `Seedship.status`: `(finished, message)` where `finished` is `some
true` on successful boot, `some false` on failure and `none` while boot
is still running. -/
def seedshipStatus (env : ShipEnv) : Option Bool × Option String :=
  if !env.containerPresent then
    (some false, some "Container does not exist")
  else if !env.containerRunning then
    (some false, some "Container died during boot")
  else
    let containerStatus := readShipFile env "/helios/boot_status"
    if containerStatus.isNone && env.elapsedOver then
      (some true, some "Non-seedship boot complete")
    else if (readShipFile env "/helios/boot_complete").isSome then
      (some true, some "Seedship boot complete")
    else
      match containerStatus with
      | some s =>
        match env.parseMsg s with
        | some m => (none, some (pyRstripColon m))
        | none => (none, some s)
      | none => (none, none)

/-! ## ImageRepository.pull_image_version (src/docker/images.py)

The environment bundles the local image store, the registry URL the
handler would return (none when no registry is configured or logged in)
and the decoded JSON lines of the pull stream.  The trace records the
registry interactions the call performs. -/

inductive PullMsg where
  | errLine (e : String)
  | layerLine (id status : String)
  | otherLine
deriving Repr, DecidableEq

inductive PullAct where
  | streamPull (remoteName tag : String)
  | tagImage (srcName srcTag dstName dstTag : String)
deriving Repr, DecidableEq

structure PullEnv where
  host : HostImages
  registryUrl : Option String
  stream : List PullMsg
deriving Repr, DecidableEq

/-- `pull_image_version` with the `Task` progress plumbing dropped: the
`local` tag short-circuits, an existing non-`latest` local image
short-circuits, a missing registry yields `None` or `ImagePullFailure`
depending on `fail_silently`, an `error` stream line likewise, and
success tags the remote image under the requested tag and `latest`. -/
def pull_image_version (env : PullEnv) (imageName imageTag : String) (failSilently : Bool) :
    Except String (Option String) × List PullAct :=
  if imageTag == "local" then
    if failSilently then (.ok none, [])
    else (.error "Cannot pull a local image", [])
  else
    let localHit :=
      imageTag != "latest" &&
        (match image_version env.host imageName imageTag false with
         | .ok _ => true
         | .error _ => false)
    if localHit then (.ok none, [])
    else
      match env.registryUrl with
      | none =>
        if failSilently then (.ok none, [])
        else (.error "No registry configured", [])
      | some url =>
        let remoteName := url ++ imageName
        let pullActs := [PullAct.streamPull remoteName imageTag]
        match env.stream.find? (fun m => match m with | .errLine _ => true | _ => false) with
        | some (.errLine e) => (if failSilently then .ok none else .error e, pullActs)
        | _ =>
          (.ok none,
            pullActs ++
              [PullAct.tagImage remoteName imageTag imageName imageTag,
               PullAct.tagImage remoteName imageTag imageName "latest"])

/-! ## Builder.build outcome (src/docker/build.py lines 69-151)

The decoded JSON objects of the engine build stream are embedded
directly (the byte-chunk reassembly into JSON lines is abstracted away).
`build_successful` starts true and is cleared by any `error` object; after
the stream is consumed the source runs
`if build_successful and self.container.image_tag != 'latest':` tag as
latest `else: raise FailedCommandException`, which the except clause
turns into `BuildFailureError`. -/

inductive BuildMsg where
  | streamLine (s : String)
  | errLine (s : String)
  | otherLine
deriving Repr, DecidableEq

inductive BuildOutcome where
  | success (taggedLatest : Bool)
  | buildFailureError (msg : String)
deriving Repr, DecidableEq

def buildSuccessful (msgs : List BuildMsg) : Bool :=
  msgs.all (fun m => match m with | .errLine _ => false | _ => true)

def builderBuild (containerName imageTag : String) (msgs : List BuildMsg) : BuildOutcome :=
  if buildSuccessful msgs && imageTag != "latest" then
    .success true
  else
    .buildFailureError ("Build FAILED for image" ++ containerName ++ "!")

/-! ## Builder.make_build_context (src/docker/build.py lines 153-222)

The directory scan (`exclude_paths`) yields a Python set of paths; its
iteration order is an input here.  Each entry is normalised: mtime 0 (or
the real mtime when the `FTL_BUILD_SRC_REAL_TIME` environment signal is
set and the on-disk location contains `/src/`), mode `0o775`, uid = gid =
0, owner names `root`; symlinks are skipped and any other entry kind is a
packaging error.  The build file gets its `FROM` lines rewritten
(`:` to `-`) when the build parent is in-prefix.  The tar is written
through `tarfile.open(mode="w:gz", fileobj=NamedTemporaryFile())`: the
gzip wrapper stores the current wall-clock time in its header MTIME field
and the temporary file name in its FNAME field, so both are inputs of the
produced archive bytes. -/

inductive FsEntry where
  | dirEntry (mtimeReal : Nat)
  | fileEntry (contents : String) (mtimeReal : Nat)
  | symlink
  | specialEntry
deriving Repr, DecidableEq

structure TarMember where
  path : String
  mtime : Nat
  mode : Nat
  uid : Nat
  gid : Nat
  uname : String
  gname : String
  isDir : Bool
  contents : String
deriving Repr, DecidableEq

structure GzipArchive where
  headerMtime : Nat
  headerName : String
  members : List TarMember
deriving Repr, DecidableEq

def containsSubstr (hay needle : List Char) : Bool :=
  match hay with
  | [] => needle.isEmpty
  | _ :: rest => needle.isPrefixOf hay || containsSubstr rest needle

def lineStartsWithFROM : List Char → Bool
  | f :: r :: o :: m :: _ =>
    (f == 'F' || f == 'f') && (r == 'R' || r == 'r') &&
      (o == 'O' || o == 'o') && (m == 'M' || m == 'm')
  | _ => false

def splitLinesAux (cs : List Char) (cur : List Char) : List (List Char) :=
  match cs with
  | [] => if cur.isEmpty then [] else [cur.reverse]
  | c :: rest =>
    if c == '\n' then (c :: cur).reverse :: splitLinesAux rest []
    else splitLinesAux rest (c :: cur)

/-- `for line in fh` over the build file contents: lines keep their
trailing newline. -/
def pyFileLines (s : String) : List (List Char) :=
  splitLinesAux s.data []

/-- The dockerfile rewrite: every line whose uppercase form starts with
`FROM` has each `:` replaced by `-` (only when the build parent is
in-prefix). -/
def rewriteDockerfile (parentInPfx : Bool) (contents : String) : String :=
  ⟨((pyFileLines contents).map
      (fun line =>
        if lineStartsWithFROM line && parentInPfx then
          line.map (fun c => if c == ':' then '-' else c)
        else line)).flatten⟩

def pyLstripSlash (s : String) : String :=
  ⟨s.data.dropWhile (fun c => c == '/')⟩

/-- One path of the `make_build_context` loop: normalise the entry and
append its tar member, skip symlinks, fail on anything else.  The mtime
is the real one only when the environment signal is set and the on-disk
location contains `/src/`. -/
def mbcStep (containerPath dockerfileName : String) (parentInPfx realTimeEnv : Bool)
    (acc : List TarMember) (p : String × FsEntry) : Except String (List TarMember) :=
  let userRealTime :=
    realTimeEnv && containsSubstr (containerPath ++ "/" ++ p.1).data "/src/".data
  match p.2 with
  | .dirEntry mtimeReal =>
    pure (acc ++
      [{ path := p.1, mtime := if userRealTime then mtimeReal else 0,
         mode := 0o775, uid := 0, gid := 0, uname := "root", gname := "root",
         isDir := true, contents := "" }])
  | .fileEntry contents mtimeReal =>
    pure (acc ++
      [{ path := p.1, mtime := if userRealTime then mtimeReal else 0,
         mode := 0o775, uid := 0, gid := 0, uname := "root", gname := "root",
         isDir := false,
         contents :=
           if pyLstripSlash p.1 == dockerfileName then rewriteDockerfile parentInPfx contents
           else contents }])
  | .symlink => pure acc
  | .specialEntry =>
    Except.error ("Cannot add non-file/dir " ++ p.1 ++ " to docker build context")

/-- `Builder.make_build_context`.  `tree` lists the scanned paths in
iteration order with their filesystem entry; `containerPath` is the
directory the paths are joined to; `realTimeEnv` models
`FTL_BUILD_SRC_REAL_TIME` being present with value `true`; `now` is the
wall-clock second the gzip header records; `tmpName` is the temporary
file name the gzip header records. -/
def make_build_context (containerPath : String) (dockerfileName : String)
    (parentInPfx : Bool) (realTimeEnv : Bool) (tree : List (String × FsEntry))
    (now : Nat) (tmpName : String) : Except String GzipArchive := do
  let members ←
    tree.foldlM (mbcStep containerPath dockerfileName parentInPfx realTimeEnv) []
  pure { headerMtime := now, headerName := tmpName, members := members }

/-- The byte-content shape of a scanned entry: what is equal between two
directories whose contents agree byte for byte (metadata such as the
on-disk mtimes may differ). -/
inductive FsShape where
  | dirS
  | fileS (contents : String)
  | symS
  | specS
deriving Repr, DecidableEq

def fsShape : FsEntry → FsShape
  | .dirEntry _ => .dirS
  | .fileEntry contents _ => .fileS contents
  | .symlink => .symS
  | .specialEntry => .specS

def treeShape (tree : List (String × FsEntry)) : List (String × FsShape) :=
  tree.map (fun p => (p.1, fsShape p.2))

/-! ## ContainerGraph.load_config and add_containers (src/containers/graph.py) -/

inductive YVal where
  | strV (v : String)
  | dictV
  | listV
deriving Repr, DecidableEq

structure TopConfig where
  pfx : Option YVal
  registry : Option YVal
  pluginConfig : Option YVal
  externalSecrets : Option YVal
  domainname : Option YVal
deriving Repr, DecidableEq

/-- One `config_data.items()` iteration of `load_config`: known keys are
stored, an unknown key is a `BadConfigError`. -/
def loadConfigStep (cfg : TopConfig) (p : String × YVal) : Except String TopConfig :=
  if p.1 == "prefix" then pure { cfg with pfx := some p.2 }
  else if p.1 == "registry" then pure { cfg with registry := some p.2 }
  else if p.1 == "plugin_configuration" then pure { cfg with pluginConfig := some p.2 }
  else if p.1 == "external_secrets" then pure { cfg with externalSecrets := some p.2 }
  else if p.1 == "domainname" then pure { cfg with domainname := some p.2 }
  else Except.error ("Unknown key in ftl.yaml: " ++ p.1)

def loadConfigInit : TopConfig :=
  { pfx := none, registry := none, pluginConfig := none,
    externalSecrets := none, domainname := none }

/-- `ContainerGraph.load_config` over an already-parsed YAML dict: a
missing `prefix` key is a `BadConfigError`.  Any value, including the
empty string, is accepted for `prefix`. -/
def load_config (entries : List (String × YVal)) : Except String TopConfig := do
  let cfg ← entries.foldlM loadConfigStep loadConfigInit
  match cfg.pfx with
  | none => Except.error "No prefix set in top-level ftl.yaml"
  | some _ => pure cfg

/-- `ContainerGraph.set_dependencies`: replaces the dependency entry for
the depender after checking both ends are in the graph. -/
def set_dependencies (g : ContainerGraph) (depender : String) (providers : List String) :
    Except String ContainerGraph :=
  providers.foldlM
    (fun (g : ContainerGraph) provider =>
      if !(lookupA g.containers provider).isSome || !(lookupA g.containers depender).isSome then
        Except.error "Cannot link between containers - one or both not in graph."
      else
        pure { g with
          rdeps :=
            insertA g.rdeps depender ((lookupA g.rdeps depender).getD [] ++ [provider]) })
    { g with rdeps := insertA g.rdeps depender [] }

/-- `ContainerGraph.add_build_dependency`. -/
def add_build_dependency (g : ContainerGraph) (depender provider : String) :
    Except String ContainerGraph :=
  if !(lookupA g.containers provider).isSome || !(lookupA g.containers depender).isSome then
    .error "Cannot build - link between containers - one or both not in graph."
  else
    .ok { g with bdeps := insertA g.bdeps depender provider }

/-- The second half of `Container.load` relevant here: the part of
`build_parent` after the first `/`. -/
def buildParentTail (bp : String) : String :=
  match bp.data.dropWhile (fun c => c != '/') with
  | [] => ""
  | _ :: rest => ⟨rest⟩

/-- The link-resolution comprehension of `add_containers`: each required
link name is looked up in the container map, a missing one raising the
`Container not found for required link` error. -/
def resolveLinks (g : ContainerGraph) (req : List String) : Except String (List String) :=
  req.foldlM
    (fun acc linkName =>
      match lookupA g.containers linkName with
      | some provider => Except.ok (acc ++ [provider.name])
      | none => Except.error ("Container not found for required link " ++ linkName))
    []

/-- The per-container body of the second `add_containers` loop: resolve
required links, store them as the dependency edges, then record the
build-parent edge when the parent is in-prefix. -/
def addContainersStep (g : ContainerGraph) (c : ContainerDef) : Except String ContainerGraph := do
  let providers ← resolveLinks g ((c.links.filter (fun l => l.2)).map (fun l => l.1))
  let g2 ← set_dependencies g c.name providers
  if c.buildParentInPfx then
    match lookupA g2.containers (buildParentTail c.buildParent) with
    | some provider => add_build_dependency g2 c.name provider.name
    | none => Except.error ("KeyError " ++ buildParentTail c.buildParent)
  else
    pure g2

/-- `ContainerGraph.add_containers`: first insert every container into
the name map, then run `addContainersStep` for each.  No acyclicity
check is performed. -/
def add_containers (g : ContainerGraph) (cs : List ContainerDef) :
    Except String ContainerGraph :=
  let g1 := { g with
    containers := cs.foldl (fun m c => insertA m c.name c) g.containers }
  cs.foldlM addContainersStep g1

/-! ## Decidable equality for `Except` results -/

def exceptDecEq {ε α : Type} [DecidableEq ε] [DecidableEq α] :
    (a b : Except ε α) → Decidable (a = b)
  | .ok x, .ok y =>
    if h : x = y then .isTrue (by rw [h]) else .isFalse (by intro hh; cases hh; exact h rfl)
  | .ok _, .error _ => .isFalse (by intro h; cases h)
  | .error _, .ok _ => .isFalse (by intro h; cases h)
  | .error e, .error e2 =>
    if h : e = e2 then .isTrue (by rw [h]) else .isFalse (by intro hh; cases hh; exact h rfl)

instance {ε α : Type} [DecidableEq ε] [DecidableEq α] : DecidableEq (Except ε α) :=
  exceptDecEq


/-- The ordering guarantee of the `dependency_sort` result: whenever the
result splits as `l1 ++ x :: l2`, every dependency of `x` already occurs
in `l1`. -/
def TopoSorted (deps : String → List String) (r : List String) : Prop :=
  ∀ (l1 : List String) (x : String) (l2 : List String),
    r = l1 ++ x :: l2 → ∀ d ∈ deps x, d ∈ l1

/-! ## Concrete charts used by counterexample and witness evaluations -/

def defA : ContainerDef :=
  { name := "a", links := [("b", true)], imageTag := "local", foreground := false,
    environment := [], memLimit := 0, ports := [], buildParentInPfx := false,
    buildParent := "lib/base" }

def defB : ContainerDef :=
  { name := "b", links := [("a", true)], imageTag := "local", foreground := false,
    environment := [], memLimit := 0, ports := [], buildParentInPfx := false,
    buildParent := "lib/base" }

def bareGraph : ContainerGraph :=
  { pfx := "", containers := [], rdeps := [], bdeps := [], opts := [] }

/-- The graph produced by loading the mutually-linked pair `a`, `b`. -/
def cycleGraph : ContainerGraph :=
  { pfx := "", containers := [("a", defA), ("b", defB)],
    rdeps := [("a", ["b"]), ("b", ["a"])], bdeps := [], opts := [] }
def defWeb : ContainerDef :=
  { name := "web", links := [("db", true)], imageTag := "local", foreground := false,
    environment := [], memLimit := 0, ports := [], buildParentInPfx := false,
    buildParent := "lib/base" }

def defDb : ContainerDef :=
  { name := "db", links := [], imageTag := "local", foreground := false,
    environment := [], memLimit := 0, ports := [], buildParentInPfx := false,
    buildParent := "lib/base" }

def chainGraph : ContainerGraph :=
  { pfx := "demo", containers := [("web", defWeb), ("db", defDb)],
    rdeps := [("web", ["db"]), ("db", [])], bdeps := [], opts := [] }

/-! ## Theorems -/

theorem decide_ne_comm {α : Type} [DecidableEq α] (a b : α) :
    decide (a ≠ b) = decide (b ≠ a) := by
  simp [ne_comm]

theorem different_from_symm (x y : ContainerInstance) :
    different_from x y = different_from y x := by
  simp only [different_from, decide_ne_comm]
  rw [Bool.eq_iff_iff]
  simp only [Bool.or_eq_true]
  tauto

theorem different_from_self (x : ContainerInstance) (h : x.foreground = false) :
    different_from x x = false := by
  simp [different_from, h]

/-- Claim C4 (amended): `different_from` is symmetric, and it is
reflexive-negative exactly on the instances whose foreground flag is not
set; a foreground instance counts as different even from itself. -/
theorem C4_different_from_symm_and_nonforeground_irrefl :
    (∀ x y : ContainerInstance, different_from x y = different_from y x) ∧
    (∀ x : ContainerInstance, x.foreground = false → different_from x x = false) ∧
    (∀ x : ContainerInstance, x.foreground = true → different_from x x = true) := by
  refine ⟨different_from_symm, different_from_self, ?_⟩
  intro x h
  simp [different_from, h]

/-- Claim C4 counterexample: a concrete foreground instance is
`different_from` itself, so `different_from` is not reflexive-negative as
claimed. -/
theorem C4_counterexample :
    different_from
      { name := "demo.web.1", container := "web", imageId := some "sha1", links := [],
        devmodes := [], ports := [], environment := [], memLimit := 0, command := none,
        foreground := true, formation := true }
      { name := "demo.web.1", container := "web", imageId := some "sha1", links := [],
        devmodes := [], ports := [], environment := [], memLimit := 0, command := none,
        foreground := true, formation := true } = true := by
  decide

/-- Claim C4 witness: the amended theorem applied at concrete instances. -/
theorem C4_witness :
    different_from
        { name := "demo.web.1", container := "web", imageId := some "sha1", links := [],
          devmodes := [], ports := [], environment := [], memLimit := 0, command := none,
          foreground := false, formation := true }
        { name := "demo.db.1", container := "db", imageId := some "sha2", links := [],
          devmodes := [], ports := [], environment := [], memLimit := 0, command := none,
          foreground := false, formation := true } =
      different_from
        { name := "demo.db.1", container := "db", imageId := some "sha2", links := [],
          devmodes := [], ports := [], environment := [], memLimit := 0, command := none,
          foreground := false, formation := true }
        { name := "demo.web.1", container := "web", imageId := some "sha1", links := [],
          devmodes := [], ports := [], environment := [], memLimit := 0, command := none,
          foreground := false, formation := true } ∧
    different_from
        { name := "demo.web.1", container := "web", imageId := some "sha1", links := [],
          devmodes := [], ports := [], environment := [], memLimit := 0, command := none,
          foreground := false, formation := true }
        { name := "demo.web.1", container := "web", imageId := some "sha1", links := [],
          devmodes := [], ports := [], environment := [], memLimit := 0, command := none,
          foreground := false, formation := true } = false :=
  ⟨C4_different_from_symm_and_nonforeground_irrefl.1 _ _,
   C4_different_from_symm_and_nonforeground_irrefl.2.1 _ rfl⟩

/-- Claim C5 (amended): pulling the `local` tag performs no registry
interaction (the action trace is empty): it returns `None` when
`fail_silently` is set and raises `ImagePullFailure` otherwise; the
locally-tagged `latest` digest is what `image_version` resolves the
`local` tag to. -/
theorem C5_local_pull_skips_registry :
    (∀ (env : PullEnv) (imageName : String) (failSilently : Bool),
      pull_image_version env imageName "local" failSilently =
        ((if failSilently then .ok none else .error "Cannot pull a local image"), [])) ∧
    (∀ (h : HostImages) (imageName : String) (ignoreNotFound : Bool),
      image_version h imageName "local" ignoreNotFound =
        image_version h imageName "latest" ignoreNotFound) := by
  constructor
  · intro env imageName failSilently
    cases failSilently <;> rfl
  · intro h imageName ignoreNotFound
    rfl

/-- Claim C5 counterexample: with a locally-tagged `latest` digest
available, `pull_image_version(name, "local", fail_silently := False)`
raises `ImagePullFailure` instead of returning the digest, and with
`fail_silently := True` it returns `None`, not the digest. -/
theorem C5_counterexample :
    pull_image_version
        { host := { images := [("img", [("latest", "sha256abc")])] },
          registryUrl := some "registry.example/", stream := [] }
        "img" "local" false = (.error "Cannot pull a local image", []) ∧
    pull_image_version
        { host := { images := [("img", [("latest", "sha256abc")])] },
          registryUrl := some "registry.example/", stream := [] }
        "img" "local" true = (.ok none, []) ∧
    image_version { images := [("img", [("latest", "sha256abc")])] } "img" "local" false =
      .ok (some "sha256abc") := by
  refine ⟨rfl, rfl, rfl⟩

/-- Claim C6 (code bug): with the container present and running, a
status file, and `/helios/boot_complete` present but empty (the sentinel
form the boot-probe contract describes), `_read_file` folds the empty
contents into the missing-file default, so `status` stays
`(None, message)` instead of the documented `(True, ...)`; only a
non-empty `boot_complete` yields `(True, "Seedship boot complete")`. -/
theorem C6_empty_sentinel_not_detected :
    lookupA
        [("/helios/boot_status", "booting"), ("/helios/boot_complete", "")]
        "/helios/boot_complete" = some "" ∧
    seedshipStatus
        { containerPresent := true, containerRunning := true,
          files := [("/helios/boot_status", "booting"), ("/helios/boot_complete", "")],
          elapsedOver := false, parseMsg := fun _ => none } = (none, some "booting") ∧
    seedshipStatus
        { containerPresent := true, containerRunning := true,
          files := [("/helios/boot_status", "booting"), ("/helios/boot_complete", "done")],
          elapsedOver := false, parseMsg := fun _ => none } =
      (some true, some "Seedship boot complete") := by
  refine ⟨rfl, rfl, rfl⟩

/-- Claim C7 (code bug): a build stream with no `error` line is
successful, yet when the image tag is `latest` the
`if build_successful and image_tag != 'latest'` conditional falls into
the `else: raise FailedCommandException` branch and `build` raises
`BuildFailureError`; the same stream with the default `local` tag
completes and tags the image as `latest`. -/
theorem C7_successful_latest_build_raises :
    buildSuccessful [.streamLine "Step 1/1 : FROM base"] = true ∧
    builderBuild "web" "latest" [.streamLine "Step 1/1 : FROM base"] =
      .buildFailureError "Build FAILED for imageweb!" ∧
    builderBuild "web" "local" [.streamLine "Step 1/1 : FROM base"] = .success true ∧
    builderBuild "web" "local" [.errLine "bad FROM"] =
      .buildFailureError "Build FAILED for imageweb!" := by
  refine ⟨rfl, rfl, rfl, rfl⟩

theorem peStep_idle (ready : String → List String → Bool) (fin : List String)
    (q done : List String) (i : Nat) (hq : q ≠ [])
    (hr : ∀ x ∈ q, ready x done = false) (hi : i ≤ 10) :
    peStep ready fin { queued := q, processing := [], done := done, idle := i } =
      .running { queued := q, processing := [], done := done, idle := i + 1 } := by
  have hqe : q.isEmpty = false := by simp [List.isEmpty_iff, hq]
  have hsp : q.filter (fun x => ready x done) = [] := by
    rw [List.filter_eq_nil_iff]
    intro a ha
    simp [hr a ha]
  have hq1 : q.filter (fun x => !(ready x done)) = q := by
    rw [List.filter_eq_self]
    intro a ha
    simp [hr a ha]
  have hgt : ¬ (i > 10) := by omega
  simp [peStep, hqe, hsp, hq1, hgt]

theorem peStep_deadlock (ready : String → List String → Bool) (fin : List String)
    (q done : List String) (hq : q ≠ [])
    (hr : ∀ x ∈ q, ready x done = false) :
    peStep ready fin { queued := q, processing := [], done := done, idle := 11 } =
      .deadlock q := by
  have hqe : q.isEmpty = false := by simp [List.isEmpty_iff, hq]
  have hsp : q.filter (fun x => ready x done) = [] := by
    rw [List.filter_eq_nil_iff]
    intro a ha
    simp [hr a ha]
  have hq1 : q.filter (fun x => !(ready x done)) = q := by
    rw [List.filter_eq_self]
    intro a ha
    simp [hr a ha]
  simp [peStep, hqe, hsp, hq1]

theorem peRun_idle (ready : String → List String → Bool)
    (q done : List String) (hq : q ≠ [])
    (hr : ∀ x ∈ q, ready x done = false) :
    ∀ (k : Nat) (oracle : Nat → List String) (i : Nat), i + k ≤ 11 →
      peRun ready oracle k { queued := q, processing := [], done := done, idle := i } =
        .running { queued := q, processing := [], done := done, idle := i + k } := by
  intro k
  induction k with
  | zero => intro oracle i _; rfl
  | succ k ih =>
    intro oracle i hik
    have hi : i ≤ 10 := by omega
    have hstep := peStep_idle ready (oracle 0) q done i hq hr hi
    have hrest := ih (fun j => oracle (j + 1)) (i + 1) (by omega)
    have harith : i + 1 + k = i + (k + 1) := by omega
    rw [harith] at hrest
    simp [peRun, hstep, hrest]

theorem peRun_deadlock_at_twelve (ready : String → List String → Bool)
    (q done : List String) (hq : q ≠ [])
    (hr : ∀ x ∈ q, ready x done = false) :
    ∀ (k : Nat) (oracle : Nat → List String) (i : Nat), i + k = 12 → 1 ≤ k →
      peRun ready oracle k { queued := q, processing := [], done := done, idle := i } =
        .deadlock q := by
  intro k
  induction k with
  | zero => intro oracle i _ h1; omega
  | succ k ih =>
    intro oracle i hik _
    by_cases h11 : i = 11
    · subst h11
      have hk0 : k = 0 := by omega
      subst hk0
      have hstep := peStep_deadlock ready (oracle 0) q done hq hr
      simp [peRun, hstep]
    · have hi : i ≤ 10 := by omega
      have hk1 : 1 ≤ k := by omega
      have hstep := peStep_idle ready (oracle 0) q done i hq hr hi
      have hrest := ih (fun j => oracle (j + 1)) (i + 1) (by omega) hk1
      simp [peRun, hstep, hrest]

/-- Claim C1 (amended): with a non-empty queue, no running worker and a
ready predicate that never admits a queued instance, every one of the
first 11 loop iterations is idle and completes without error (the idle
counter merely climbs to 11), and the deadlock error is raised in the
12th consecutive idle iteration, naming exactly the queued instances. -/
theorem C1_deadlock_in_twelfth_idle_iteration
    (ready : String → List String → Bool) (oracle : Nat → List String)
    (q done : List String) (hq : q ≠ [])
    (hr : ∀ x ∈ q, ready x done = false) :
    (∀ k, k ≤ 11 →
      peRun ready oracle k { queued := q, processing := [], done := done, idle := 0 } =
        .running { queued := q, processing := [], done := done, idle := k }) ∧
    peRun ready oracle 12 { queued := q, processing := [], done := done, idle := 0 } =
      .deadlock q := by
  constructor
  · intro k hk
    have h := peRun_idle ready q done hq hr k oracle 0 (by omega)
    simpa using h
  · exact peRun_deadlock_at_twelve ready q done hq hr 12 oracle 0 rfl (by omega)

/-- Claim C1 counterexample: a single queued instance with a never-ready
predicate: after 11 complete idle iterations the loop is still running
(no deadlock has been raised), refuting detection within 11 idle
iterations; the counter has merely reached 11. -/
theorem C1_counterexample :
    peRun (fun _ _ => false) (fun _ => []) 11
        { queued := ["demo.web.1"], processing := [], done := [], idle := 0 } =
      .running { queued := ["demo.web.1"], processing := [], done := [], idle := 11 } := by
  rfl

/-- Claim C1 witness: the amended theorem applied to one queued instance
and the constantly-false ready predicate. -/
theorem C1_witness :
    peRun (fun _ _ => false) (fun _ => []) 12
        { queued := ["demo.web.1"], processing := [], done := [], idle := 0 } =
      .deadlock ["demo.web.1"] :=
  (C1_deadlock_in_twelfth_idle_iteration (fun _ _ => false) (fun _ => [])
    ["demo.web.1"] [] (by simp) (fun x _ => rfl)).2

theorem stopScan_mono (desired : Formation) :
    ∀ (l : Formation) (acc : List ContainerInstance) (x : ContainerInstance),
      x ∈ acc → x ∈ l.foldl (stopScanStep desired) acc := by
  intro l
  induction l with
  | nil => intro acc x hx; exact hx
  | cons q rest ih =>
    intro acc x hx
    rw [List.foldl_cons]
    apply ih
    unfold stopScanStep
    split
    · exact hx
    · exact List.mem_append_left _ hx

theorem stopScan_add (desired : Formation) :
    ∀ (l : Formation) (acc : List ContainerInstance) (p : String × ContainerInstance),
      p ∈ l → lookupA desired p.1 = none →
      p.2 ∈ l.foldl (stopScanStep desired) acc := by
  intro l
  induction l with
  | nil => intro acc p hp _; cases hp
  | cons q rest ih =>
    intro acc p hp hlk
    rw [List.foldl_cons]
    rcases List.mem_cons.mp hp with h | h
    · subst h
      apply stopScan_mono
      unfold stopScanStep
      rw [hlk]
      simp
    · exact ih _ p h hlk

theorem startScan_mono (current : Formation) :
    ∀ (l : Formation) (acc : List ContainerInstance × List ContainerInstance)
      (x : ContainerInstance),
      (x ∈ acc.1 → x ∈ (l.foldl (startScanStep current) acc).1) ∧
      (x ∈ acc.2 → x ∈ (l.foldl (startScanStep current) acc).2) := by
  intro l
  induction l with
  | nil => intro acc x; exact ⟨id, id⟩
  | cons q rest ih =>
    intro acc x
    rw [List.foldl_cons]
    constructor
    · intro hx
      apply (ih _ x).1
      unfold startScanStep
      split
      · exact hx
      · split
        · exact List.mem_append_left _ hx
        · exact hx
    · intro hx
      apply (ih _ x).2
      unfold startScanStep
      split
      · exact List.mem_append_left _ hx
      · split
        · exact List.mem_append_left _ hx
        · exact hx

theorem startScan_add_new (current : Formation) :
    ∀ (l : Formation) (acc : List ContainerInstance × List ContainerInstance)
      (p : String × ContainerInstance),
      p ∈ l → lookupA current p.1 = none →
      p.2 ∈ (l.foldl (startScanStep current) acc).2 := by
  intro l
  induction l with
  | nil => intro acc p hp _; cases hp
  | cons q rest ih =>
    intro acc p hp hlk
    rw [List.foldl_cons]
    rcases List.mem_cons.mp hp with h | h
    · subst h
      apply (startScan_mono current rest _ _).2
      unfold startScanStep
      rw [hlk]
      simp
    · exact ih _ p h hlk

theorem startScan_add_changed (current : Formation) :
    ∀ (l : Formation) (acc : List ContainerInstance × List ContainerInstance)
      (p : String × ContainerInstance) (cur : ContainerInstance),
      p ∈ l → lookupA current p.1 = some cur → different_from p.2 cur = true →
      p.2 ∈ (l.foldl (startScanStep current) acc).1 ∧
        p.2 ∈ (l.foldl (startScanStep current) acc).2 := by
  intro l
  induction l with
  | nil => intro acc p cur hp _ _; cases hp
  | cons q rest ih =>
    intro acc p cur hp hlk hdiff
    rw [List.foldl_cons]
    rcases List.mem_cons.mp hp with h | h
    · subst h
      constructor
      · apply (startScan_mono current rest _ _).1
        unfold startScanStep
        simp [hlk, hdiff]
      · apply (startScan_mono current rest _ _).2
        unfold startScanStep
        simp [hlk, hdiff]
    · exact ih _ p cur h hlk hdiff

/-- Claim C10: instance equality and hashing are by runtime name only,
formation membership ignores every field except the runtime name, and the
delta loops of `FormationRunner.run` queue instances for stop/start by
runtime-name lookup (with `different_from` deciding the present-in-both
case). -/
theorem C10_identity_by_runtime_name :
    (∀ x y : ContainerInstance, pyEq x y = true ↔ x.name = y.name) ∧
    (∀ x y : ContainerInstance, x.name = y.name → pyHash x = pyHash y) ∧
    (∀ (f : Formation) (x y : ContainerInstance), x.name = y.name →
      formationContains f x = formationContains f y) ∧
    (∀ (desired current : Formation) (p : String × ContainerInstance),
      p ∈ current → lookupA desired p.1 = none →
      p.2 ∈ (runDelta desired current).1) ∧
    (∀ (desired current : Formation) (p : String × ContainerInstance),
      p ∈ desired → lookupA current p.1 = none →
      p.2 ∈ (runDelta desired current).2) ∧
    (∀ (desired current : Formation) (p : String × ContainerInstance)
      (cur : ContainerInstance),
      p ∈ desired → lookupA current p.1 = some cur → different_from p.2 cur = true →
      p.2 ∈ (runDelta desired current).1 ∧ p.2 ∈ (runDelta desired current).2) := by
  refine ⟨?_, ?_, ?_, ?_, ?_, ?_⟩
  · intro x y
    simp [pyEq]
  · intro x y h
    simp [pyHash, h]
  · intro f x y h
    simp [formationContains, h]
  · intro desired current p hp hlk
    unfold runDelta
    exact (startScan_mono current desired _ _).1 (stopScan_add desired current [] p hp hlk)
  · intro desired current p hp hlk
    unfold runDelta
    exact startScan_add_new current desired _ p hp hlk
  · intro desired current p cur hp hlk hdiff
    unfold runDelta
    exact startScan_add_changed current desired _ p cur hp hlk hdiff

/-- Claim C10 witness: the identity theorem applied to a concrete delta:
`demo.old.1` (absent from the desired formation) is stopped, `demo.api.1`
(absent from the current formation) is started, and `demo.web.1` (present
in both but with a changed image) is both stopped and started. -/
theorem C10_witness :
    pyHash
        { name := "demo.web.1", container := "web", imageId := some "sha2", links := [],
          devmodes := [], ports := [], environment := [], memLimit := 0, command := none,
          foreground := false, formation := true } =
      pyHash
        { name := "demo.web.1", container := "web", imageId := some "sha1", links := [],
          devmodes := [], ports := [], environment := [], memLimit := 0, command := none,
          foreground := false, formation := true } ∧
    { name := "demo.old.1", container := "old", imageId := some "sha0", links := [],
      devmodes := [], ports := [], environment := [], memLimit := 0, command := none,
      foreground := false, formation := true } ∈
      (runDelta
        [("demo.web.1",
          { name := "demo.web.1", container := "web", imageId := some "sha2", links := [],
            devmodes := [], ports := [], environment := [], memLimit := 0, command := none,
            foreground := false, formation := true }),
         ("demo.api.1",
          { name := "demo.api.1", container := "api", imageId := some "sha3", links := [],
            devmodes := [], ports := [], environment := [], memLimit := 0, command := none,
            foreground := false, formation := true })]
        [("demo.web.1",
          { name := "demo.web.1", container := "web", imageId := some "sha1", links := [],
            devmodes := [], ports := [], environment := [], memLimit := 0, command := none,
            foreground := false, formation := true }),
         ("demo.old.1",
          { name := "demo.old.1", container := "old", imageId := some "sha0", links := [],
            devmodes := [], ports := [], environment := [], memLimit := 0, command := none,
            foreground := false, formation := true })]).1 ∧
    { name := "demo.api.1", container := "api", imageId := some "sha3", links := [],
      devmodes := [], ports := [], environment := [], memLimit := 0, command := none,
      foreground := false, formation := true } ∈
      (runDelta
        [("demo.web.1",
          { name := "demo.web.1", container := "web", imageId := some "sha2", links := [],
            devmodes := [], ports := [], environment := [], memLimit := 0, command := none,
            foreground := false, formation := true }),
         ("demo.api.1",
          { name := "demo.api.1", container := "api", imageId := some "sha3", links := [],
            devmodes := [], ports := [], environment := [], memLimit := 0, command := none,
            foreground := false, formation := true })]
        [("demo.web.1",
          { name := "demo.web.1", container := "web", imageId := some "sha1", links := [],
            devmodes := [], ports := [], environment := [], memLimit := 0, command := none,
            foreground := false, formation := true }),
         ("demo.old.1",
          { name := "demo.old.1", container := "old", imageId := some "sha0", links := [],
            devmodes := [], ports := [], environment := [], memLimit := 0, command := none,
            foreground := false, formation := true })]).2 ∧
    { name := "demo.web.1", container := "web", imageId := some "sha2", links := [],
      devmodes := [], ports := [], environment := [], memLimit := 0, command := none,
      foreground := false, formation := true } ∈
      (runDelta
        [("demo.web.1",
          { name := "demo.web.1", container := "web", imageId := some "sha2", links := [],
            devmodes := [], ports := [], environment := [], memLimit := 0, command := none,
            foreground := false, formation := true }),
         ("demo.api.1",
          { name := "demo.api.1", container := "api", imageId := some "sha3", links := [],
            devmodes := [], ports := [], environment := [], memLimit := 0, command := none,
            foreground := false, formation := true })]
        [("demo.web.1",
          { name := "demo.web.1", container := "web", imageId := some "sha1", links := [],
            devmodes := [], ports := [], environment := [], memLimit := 0, command := none,
            foreground := false, formation := true }),
         ("demo.old.1",
          { name := "demo.old.1", container := "old", imageId := some "sha0", links := [],
            devmodes := [], ports := [], environment := [], memLimit := 0, command := none,
            foreground := false, formation := true })]).1 :=
  ⟨C10_identity_by_runtime_name.2.1 _ _ rfl,
   C10_identity_by_runtime_name.2.2.2.1 _ _
     (("demo.old.1",
       { name := "demo.old.1", container := "old", imageId := some "sha0", links := [],
         devmodes := [], ports := [], environment := [], memLimit := 0, command := none,
         foreground := false, formation := true }))
     (by decide) (by decide),
   C10_identity_by_runtime_name.2.2.2.2.1 _ _
     (("demo.api.1",
       { name := "demo.api.1", container := "api", imageId := some "sha3", links := [],
         devmodes := [], ports := [], environment := [], memLimit := 0, command := none,
         foreground := false, formation := true }))
     (by decide) (by decide),
   (C10_identity_by_runtime_name.2.2.2.2.2 _ _
     (("demo.web.1",
       { name := "demo.web.1", container := "web", imageId := some "sha2", links := [],
         devmodes := [], ports := [], environment := [], memLimit := 0, command := none,
         foreground := false, formation := true }))
     { name := "demo.web.1", container := "web", imageId := some "sha1", links := [],
       devmodes := [], ports := [], environment := [], memLimit := 0, command := none,
       foreground := false, formation := true }
     (by decide) (by decide) (by decide)).1⟩

theorem exbind_ok {ε α β : Type} (a : α) (f : α → Except ε β) :
    (Except.ok a >>= f) = f a := rfl

theorem exbind_err {ε α β : Type} (e : ε) (f : α → Except ε β) :
    (Except.error e >>= f : Except ε β) = Except.error e := rfl

theorem expure_eq {ε α : Type} (a : α) : (pure a : Except ε α) = Except.ok a := rfl

theorem load_config_pfx_set (entries : List (String × YVal)) (cfg : TopConfig)
    (h : load_config entries = .ok cfg) : cfg.pfx ≠ none := by
  unfold load_config at h
  cases hf : entries.foldlM loadConfigStep loadConfigInit with
  | error e => rw [hf, exbind_err] at h; cases h
  | ok c0 =>
    rw [hf, exbind_ok] at h
    cases hp : c0.pfx with
    | none => rw [hp] at h; cases h
    | some v =>
      rw [hp] at h
      rw [expure_eq] at h
      cases h
      rw [hp]
      simp

theorem foldlM_preserves_containers
    (step : ContainerGraph → ContainerDef → Except String ContainerGraph)
    (hstep : ∀ g c g2, step g c = .ok g2 → g2.containers = g.containers) :
    ∀ (l : List ContainerDef) (g g2 : ContainerGraph),
      l.foldlM step g = .ok g2 → g2.containers = g.containers := by
  intro l
  induction l with
  | nil => intro g g2 h; rw [List.foldlM_nil, expure_eq] at h; cases h; rfl
  | cons c rest ih =>
    intro g g2 h
    rw [List.foldlM_cons] at h
    cases hs : step g c with
    | error e => rw [hs, exbind_err] at h; cases h
    | ok gmid =>
      rw [hs, exbind_ok] at h
      rw [ih gmid g2 h, hstep g c gmid hs]

theorem set_dependencies_containers (g : ContainerGraph) (d : String)
    (ps : List String) (g2 : ContainerGraph) (h : set_dependencies g d ps = .ok g2) :
    g2.containers = g.containers := by
  unfold set_dependencies at h
  have haux :
      ∀ (l : List String) (g0 g2 : ContainerGraph),
        (l.foldlM
          (fun (g : ContainerGraph) provider =>
            if !(lookupA g.containers provider).isSome || !(lookupA g.containers d).isSome then
              Except.error "Cannot link between containers - one or both not in graph."
            else
              pure { g with
                rdeps := insertA g.rdeps d ((lookupA g.rdeps d).getD [] ++ [provider]) })
          g0) = .ok g2 → g2.containers = g0.containers := by
    intro l
    induction l with
    | nil => intro g0 g2 h; rw [List.foldlM_nil, expure_eq] at h; cases h; rfl
    | cons p rest ih =>
      intro g0 g2 h
      rw [List.foldlM_cons] at h
      by_cases hc :
          (!(lookupA g0.containers p).isSome || !(lookupA g0.containers d).isSome) = true
      · rw [if_pos hc, exbind_err] at h; cases h
      · rw [if_neg hc, expure_eq, exbind_ok] at h
        exact ih { g0 with
          rdeps := insertA g0.rdeps d ((lookupA g0.rdeps d).getD [] ++ [p]) } g2 h
  exact haux ps { g with rdeps := insertA g.rdeps d [] } g2 h

theorem add_build_dependency_containers (g : ContainerGraph) (d p : String)
    (g2 : ContainerGraph) (h : add_build_dependency g d p = .ok g2) :
    g2.containers = g.containers := by
  unfold add_build_dependency at h
  by_cases hc : (!(lookupA g.containers p).isSome || !(lookupA g.containers d).isSome) = true
  · rw [if_pos hc] at h; cases h
  · rw [if_neg hc] at h; cases h; rfl

theorem resolveLinks_mem (g : ContainerGraph) :
    ∀ (req acc out : List String),
      (req.foldlM
        (fun acc linkName =>
          match lookupA g.containers linkName with
          | some provider => Except.ok (acc ++ [provider.name])
          | none => Except.error ("Container not found for required link " ++ linkName))
        acc) = .ok out →
      ∀ ln ∈ req, (lookupA g.containers ln).isSome := by
  intro req
  induction req with
  | nil => intro acc out _ ln hln; cases hln
  | cons q rest ih =>
    intro acc out h ln hln
    rw [List.foldlM_cons] at h
    cases hq : lookupA g.containers q with
    | none => rw [hq] at h; rw [exbind_err] at h; cases h
    | some provider =>
      rw [hq] at h
      rw [exbind_ok] at h
      rcases List.mem_cons.mp hln with he | he
      · subst he; rw [hq]; rfl
      · exact ih _ out h ln he

theorem addContainersStep_containers (g : ContainerGraph) (c : ContainerDef)
    (g2 : ContainerGraph) (h : addContainersStep g c = .ok g2) :
    g2.containers = g.containers := by
  unfold addContainersStep at h
  cases hr : resolveLinks g ((c.links.filter (fun l => l.2)).map (fun l => l.1)) with
  | error e => rw [hr, exbind_err] at h; cases h
  | ok providers =>
    rw [hr, exbind_ok] at h
    cases hs : set_dependencies g c.name providers with
    | error e => rw [hs, exbind_err] at h; cases h
    | ok gmid =>
      rw [hs, exbind_ok] at h
      have hmid := set_dependencies_containers g c.name providers gmid hs
      by_cases hb : c.buildParentInPfx = true
      · rw [if_pos hb] at h
        cases hl : lookupA gmid.containers (buildParentTail c.buildParent) with
        | none => rw [hl] at h; cases h
        | some provider =>
          rw [hl] at h
          rw [add_build_dependency_containers gmid c.name provider.name g2 h, hmid]
      · rw [if_neg hb, expure_eq] at h
        cases h
        exact hmid

theorem addContainersStep_links (g : ContainerGraph) (c : ContainerDef)
    (g2 : ContainerGraph) (h : addContainersStep g c = .ok g2) :
    ∀ l ∈ c.links, l.2 = true → (lookupA g.containers l.1).isSome := by
  unfold addContainersStep at h
  cases hr : resolveLinks g ((c.links.filter (fun l => l.2)).map (fun l => l.1)) with
  | error e => rw [hr, exbind_err] at h; cases h
  | ok providers =>
    intro l hl hreq
    have hmem : l.1 ∈ (c.links.filter (fun l => l.2)).map (fun l => l.1) := by
      apply List.mem_map_of_mem
      rw [List.mem_filter]
      exact ⟨hl, hreq⟩
    unfold resolveLinks at hr
    exact resolveLinks_mem g _ [] providers hr l.1 hmem

theorem addContainers_chain :
    ∀ (cs : List ContainerDef) (g0 g3 : ContainerGraph),
      cs.foldlM addContainersStep g0 = .ok g3 →
      g3.containers = g0.containers ∧
        ∀ c ∈ cs, ∀ l ∈ c.links, l.2 = true → (lookupA g0.containers l.1).isSome := by
  intro cs
  induction cs with
  | nil =>
    intro g0 g3 h
    rw [List.foldlM_nil, expure_eq] at h
    cases h
    exact ⟨rfl, by intro c hc; cases hc⟩
  | cons c rest ih =>
    intro g0 g3 h
    rw [List.foldlM_cons] at h
    cases hs : addContainersStep g0 c with
    | error e => rw [hs, exbind_err] at h; cases h
    | ok gmid =>
      rw [hs, exbind_ok] at h
      have hmidc := addContainersStep_containers g0 c gmid hs
      obtain ⟨hcont, hlinks⟩ := ih gmid g3 h
      refine ⟨by rw [hcont, hmidc], ?_⟩
      intro c2 hc2 l hl hreq
      rcases List.mem_cons.mp hc2 with he | he
      · rw [he] at hl
        exact addContainersStep_links g0 c gmid hs l hl hreq
      · have := hlinks c2 he l hl hreq
        rwa [hmidc] at this

/-- Claim C9 (amended): after `load_config` succeeds the prefix has been
set (it may still be the empty string), and after `add_containers`
succeeds every required link target of every added container is present
in the container map.  No acyclicity of the runtime-dependency relation
is established by loading (cycles surface later, in `dependency_sort`). -/
theorem C9_load_establishes_pfx_and_link_targets :
    (∀ (entries : List (String × YVal)) (cfg : TopConfig),
      load_config entries = .ok cfg → cfg.pfx ≠ none) ∧
    (∀ (g : ContainerGraph) (cs : List ContainerDef) (g3 : ContainerGraph),
      add_containers g cs = .ok g3 →
      ∀ c ∈ cs, ∀ l ∈ c.links, l.2 = true → (lookupA g3.containers l.1).isSome) := by
  constructor
  · exact load_config_pfx_set
  · intro g cs g3 h c hc l hl hreq
    unfold add_containers at h
    obtain ⟨hcont, hlinks⟩ := addContainers_chain cs _ g3 h
    rw [hcont]
    exact hlinks c hc l hl hreq

/-- Claim C9 counterexample: a top-level manifest whose `prefix` is the
empty string loads without error, and two containers with mutually
required links load without error while putting a cycle into the
runtime-dependency relation, so neither the non-empty-prefix invariant
nor acyclicity holds after a successful load. -/
theorem C9_counterexample :
    load_config [("prefix", YVal.strV "")] =
      .ok { pfx := some (.strV ""), registry := none, pluginConfig := none,
            externalSecrets := none, domainname := none } ∧
    add_containers bareGraph [defA, defB] = .ok cycleGraph ∧
    TransDepends cycleGraph "a" "a" :=
  ⟨rfl, by decide,
   @Relation.TransGen.head String (fun x y => x ∈ dependenciesOf cycleGraph y)
     "a" "b" "a" (by decide)
     (@Relation.TransGen.single String (fun x y => x ∈ dependenciesOf cycleGraph y)
       "b" "a" (by decide))⟩


/-- Claim C9 witness: the amended theorem applied to a concrete manifest
and a concrete two-container chart. -/
theorem C9_witness :
    (some (YVal.strV "demo") ≠ none) ∧
    (lookupA chainGraph.containers "db").isSome := by
  constructor
  · have h :=
      C9_load_establishes_pfx_and_link_targets.1 [("prefix", YVal.strV "demo")]
        { pfx := some (.strV "demo"), registry := none, pluginConfig := none,
          externalSecrets := none, domainname := none } rfl
    exact h
  · exact
      C9_load_establishes_pfx_and_link_targets.2
        { pfx := "demo", containers := [], rdeps := [], bdeps := [], opts := [] }
        [defWeb, defDb] chainGraph (by decide) defWeb (by decide) ("db", true)
        (by decide) rfl

theorem mbcStep_shape_eq (cp dn : String) (pip : Bool)
    (p1 p2 : String × FsEntry) (hk : p1.1 = p2.1) (hs : fsShape p1.2 = fsShape p2.2)
    (acc : List TarMember) :
    mbcStep cp dn pip false acc p1 = mbcStep cp dn pip false acc p2 := by
  cases h1 : p1.2 <;> cases h2 : p2.2 <;>
    simp [h1, h2, fsShape] at hs <;>
    simp [mbcStep, h1, h2, hk, hs]

theorem mbcFold_shape_eq (cp dn : String) (pip : Bool) :
    ∀ (t1 t2 : List (String × FsEntry)), treeShape t1 = treeShape t2 →
      ∀ acc : List TarMember,
        t1.foldlM (mbcStep cp dn pip false) acc = t2.foldlM (mbcStep cp dn pip false) acc := by
  intro t1
  induction t1 with
  | nil =>
    intro t2 hsh acc
    cases t2 with
    | nil => rfl
    | cons q r2 => simp [treeShape] at hsh
  | cons p r1 ih =>
    intro t2 hsh acc
    cases t2 with
    | nil => simp [treeShape] at hsh
    | cons q r2 =>
      simp only [treeShape, List.map_cons, List.cons.injEq, Prod.mk.injEq] at hsh
      obtain ⟨⟨hk, hs⟩, hrest⟩ := hsh
      rw [List.foldlM_cons, List.foldlM_cons]
      rw [mbcStep_shape_eq cp dn pip p q hk hs acc]
      cases hstep : mbcStep cp dn pip false acc q with
      | error e => rw [exbind_err, exbind_err]
      | ok acc2 =>
        rw [exbind_ok, exbind_ok]
        exact ih r2 hrest acc2

/-- Claim C8 (amended): with `FTL_BUILD_SRC_REAL_TIME` unset and the same
path enumeration order, two build-context runs over directories whose
contents agree byte for byte (entry kinds and file bytes equal; on-disk
mtimes free to differ) produce identical tar members: every member has
mtime 0, mode `0o775`, uid = gid = 0 and owner `root`.  Whole-archive
byte equality fails only because of the gzip wrapper (header MTIME and
FNAME), which records the wall clock and the temporary file name. -/
theorem C8_tar_members_deterministic (cp dn : String) (pip : Bool)
    (t1 t2 : List (String × FsEntry)) (n1 n2 : Nat) (m1 m2 : String)
    (a1 a2 : GzipArchive)
    (hsh : treeShape t1 = treeShape t2)
    (h1 : make_build_context cp dn pip false t1 n1 m1 = .ok a1)
    (h2 : make_build_context cp dn pip false t2 n2 m2 = .ok a2) :
    a1.members = a2.members := by
  unfold make_build_context at h1 h2
  rw [mbcFold_shape_eq cp dn pip t1 t2 hsh []] at h1
  cases hf : t2.foldlM (mbcStep cp dn pip false) [] with
  | error e =>
    rw [hf, exbind_err] at h1
    cases h1
  | ok ms =>
    rw [hf, exbind_ok, expure_eq] at h1 h2
    cases h1
    cases h2
    rfl

/-- Claim C8 counterexample: the same directory contents archived at two
different wall-clock seconds (and through two different temporary file
names) yield different archive bytes, because the gzip header records
both; the claimed byte-for-byte equality of the produced archive fails. -/
theorem C8_counterexample :
    make_build_context "charts/web" "Dockerfile" false false
        [("app", .dirEntry 5), ("app/main.py", .fileEntry "print(1)" 7)] 100 "/tmp/b1" ≠
      make_build_context "charts/web" "Dockerfile" false false
        [("app", .dirEntry 5), ("app/main.py", .fileEntry "print(1)" 7)] 200 "/tmp/b2" := by
  decide

/-- Claim C8 witness: the amended theorem applied to two runs over the
same bytes with different on-disk mtimes, wall-clock times and temporary
names: the tar members agree (normalised mtime 0, mode `0o775`, root
ownership) even though the gzip headers differ. -/
theorem C8_witness :
    ({ headerMtime := 100, headerName := "/tmp/b1",
       members :=
         [{ path := "app", mtime := 0, mode := 0o775, uid := 0, gid := 0,
            uname := "root", gname := "root", isDir := true, contents := "" },
          { path := "app/main.py", mtime := 0, mode := 0o775, uid := 0, gid := 0,
            uname := "root", gname := "root", isDir := false,
            contents := "print(1)" }] } : GzipArchive).members =
      ({ headerMtime := 200, headerName := "/tmp/b2",
         members :=
           [{ path := "app", mtime := 0, mode := 0o775, uid := 0, gid := 0,
              uname := "root", gname := "root", isDir := true, contents := "" },
            { path := "app/main.py", mtime := 0, mode := 0o775, uid := 0, gid := 0,
              uname := "root", gname := "root", isDir := false,
              contents := "print(1)" }] } : GzipArchive).members :=
  C8_tar_members_deterministic "charts/web" "Dockerfile" false
    [("app", .dirEntry 5), ("app/main.py", .fileEntry "print(1)" 7)]
    [("app", .dirEntry 9), ("app/main.py", .fileEntry "print(1)" 11)]
    100 200 "/tmp/b1" "/tmp/b2" _ _ (by decide) (by decide) (by decide)

theorem insertA_eq_of_lookup {α : Type} (l : List (String × α)) (k : String) (v : α)
    (h : lookupA l k = some v) : insertA l k v = l := by
  induction l with
  | nil => cases h
  | cons p rest ih =>
    unfold lookupA at h
    unfold insertA
    by_cases hk : (p.1 == k) = true
    · rw [if_pos hk] at h
      rw [if_pos hk]
      cases h
      have : p.1 = k := by simpa using hk
      rw [← this]
    · rw [if_neg hk] at h
      rw [if_neg hk, ih h]

theorem acFold_all_found (directDeps : List String)
    (recur : Formation → String → Except String (Formation × ContainerInstance)) :
    ∀ (l : List String) (f : Formation) (links : List (String × String)),
      (∀ dep ∈ l, ∃ p ∈ f, (p.2.container == dep) = true) →
      ∃ links2, l.foldlM (acStep directDeps recur) (f, links) = .ok (f, links2) := by
  intro l
  induction l with
  | nil =>
    intro f links _
    exact ⟨links, rfl⟩
  | cons dep rest ih =>
    intro f links hall
    have hhead := hall dep (List.mem_cons_self dep rest)
    have hfind : (f.find? (fun p => p.2.container == dep)).isSome := by
      rw [List.find?_isSome]
      exact hhead
    cases hf : f.find? (fun p => p.2.container == dep) with
    | none => rw [hf] at hfind; cases hfind
    | some p =>
      rw [List.foldlM_cons]
      have hstep :
          acStep directDeps recur (f, links) dep =
            .ok (f, if directDeps.contains dep then links ++ [(dep, p.2.name)] else links) := by
        simp only [acStep, hf]
        by_cases hd : dep ∈ directDeps
        · simp [hd, expure_eq]
        · simp [hd, expure_eq]
      rw [hstep, exbind_ok]
      exact ih f _ (fun d hd => hall d (List.mem_cons_of_mem dep hd))

/-- Claim C3 (amended): `add_container` has no presence guard, so it is
not a no-op in general (see the counterexample); re-adding is a no-op on
the instance map only in the value-level sense: when every dependency
ancestor already has an instance and the formation already holds, under
the runtime name the call constructs, exactly the instance value the call
rebuilds, the dict assignment overwrites that entry with an equal value
and the map is unchanged. -/
theorem C3_add_container_reinsert_noop
    (host : HostImages) (g : ContainerGraph) (fuel : Nat) (f : Formation)
    (cname : String) (ignoreDeps : Bool) (sorted : List String)
    (f2 : Formation) (inst2 : ContainerInstance)
    (hsort : dependency_sort (fuel + 1) [cname] (dependenciesOf g) = .ok sorted)
    (hdeps : ∀ dep ∈ sorted.dropLast, ∃ p ∈ f, (p.2.container == dep) = true)
    (hout : add_container host g (fuel + 1) f cname ignoreDeps = .ok (f2, inst2))
    (hpresent : lookupA f inst2.name = some inst2) :
    f2 = f := by
  unfold add_container at hout
  cases hC : lookupA g.containers cname with
  | none =>
    simp only [hC, exbind_err] at hout
    cases hout
  | some c =>
    obtain ⟨links2, hfold⟩ :=
      acFold_all_found (dependenciesOf g cname)
        (fun f1 dep => add_container host g fuel f1 dep ignoreDeps)
        sorted.dropLast f [] hdeps
    cases hI : image_version host (imageNameOf g c) c.imageTag ignoreDeps with
    | error e =>
      simp only [hC, hsort, hfold, hI, exbind_ok, exbind_err] at hout
      cases hout
    | ok imageId =>
      simp only [hC, hsort, hfold, hI, exbind_ok, exbind_err, add_instance,
        Bool.false_eq_true, if_false, expure_eq, Except.ok.injEq, Prod.mk.injEq] at hout
      obtain ⟨hf2, hi2⟩ := hout
      rw [← hi2] at hpresent
      rw [← hf2]
      exact insertA_eq_of_lookup f _ _ hpresent

/-- Claim C3 counterexample: a formation already containing an instance
for container `web` (under the runtime name `other.web.2`, as
introspection can produce): `add_container` has no presence guard, so a
call adds a second entry under `demo.web.1` and the instance map is
changed, not left alone. -/
theorem C3_counterexample :
    has_container
        [("other.web.2",
          { name := "other.web.2", container := "web", imageId := some "sha0", links := [],
            devmodes := [], ports := [], environment := [], memLimit := 0, command := none,
            foreground := false, formation := true })] "web" = true ∧
    add_container { images := [("demo/web", [("latest", "sha1")])] }
        { pfx := "demo",
          containers :=
            [("web",
              { name := "web", links := [], imageTag := "local", foreground := false,
                environment := [], memLimit := 0, ports := [], buildParentInPfx := false,
                buildParent := "lib/base" })],
          rdeps := [], bdeps := [], opts := [] }
        5
        [("other.web.2",
          { name := "other.web.2", container := "web", imageId := some "sha0", links := [],
            devmodes := [], ports := [], environment := [], memLimit := 0, command := none,
            foreground := false, formation := true })]
        "web" false =
      .ok
        ([("other.web.2",
           { name := "other.web.2", container := "web", imageId := some "sha0", links := [],
             devmodes := [], ports := [], environment := [], memLimit := 0, command := none,
             foreground := false, formation := true }),
          ("demo.web.1",
           { name := "demo.web.1", container := "web", imageId := some "sha1", links := [],
             devmodes := [], ports := [], environment := [], memLimit := 0, command := none,
             foreground := false, formation := true })],
         { name := "demo.web.1", container := "web", imageId := some "sha1", links := [],
           devmodes := [], ports := [], environment := [], memLimit := 0, command := none,
           foreground := false, formation := true }) ∧
    ([("other.web.2",
       { name := "other.web.2", container := "web", imageId := some "sha0", links := [],
         devmodes := [], ports := [], environment := [], memLimit := 0, command := none,
         foreground := false, formation := true }),
      ("demo.web.1",
       { name := "demo.web.1", container := "web", imageId := some "sha1", links := [],
         devmodes := [], ports := [], environment := [], memLimit := 0, command := none,
         foreground := false, formation := true })] : Formation) ≠
      [("other.web.2",
        { name := "other.web.2", container := "web", imageId := some "sha0", links := [],
          devmodes := [], ports := [], environment := [], memLimit := 0, command := none,
          foreground := false, formation := true })] := by
  refine ⟨rfl, by decide, by decide⟩

/-- Claim C3 witness: the amended theorem applied to a formation that
already holds exactly the instance the call rebuilds: the map is
unchanged. -/
theorem C3_witness :
    ([("demo.web.1",
       { name := "demo.web.1", container := "web", imageId := some "sha1", links := [],
         devmodes := [], ports := [], environment := [], memLimit := 0, command := none,
         foreground := false, formation := true })] : Formation) =
      [("demo.web.1",
        { name := "demo.web.1", container := "web", imageId := some "sha1", links := [],
          devmodes := [], ports := [], environment := [], memLimit := 0, command := none,
          foreground := false, formation := true })] :=
  C3_add_container_reinsert_noop
    { images := [("demo/web", [("latest", "sha1")])] }
    { pfx := "demo",
      containers :=
        [("web",
          { name := "web", links := [], imageTag := "local", foreground := false,
            environment := [], memLimit := 0, ports := [], buildParentInPfx := false,
            buildParent := "lib/base" })],
      rdeps := [], bdeps := [], opts := [] }
    4
    [("demo.web.1",
      { name := "demo.web.1", container := "web", imageId := some "sha1", links := [],
        devmodes := [], ports := [], environment := [], memLimit := 0, command := none,
        foreground := false, formation := true })]
    "web" false ["web"]
    [("demo.web.1",
      { name := "demo.web.1", container := "web", imageId := some "sha1", links := [],
        devmodes := [], ports := [], environment := [], memLimit := 0, command := none,
        foreground := false, formation := true })]
    { name := "demo.web.1", container := "web", imageId := some "sha1", links := [],
      devmodes := [], ports := [], environment := [], memLimit := 0, command := none,
      foreground := false, formation := true }
    (by decide) (by simp) (by decide) rfl

theorem lookupA_isSome_iff {α : Type} (l : List (String × α)) (k : String) :
    (lookupA l k).isSome ↔ k ∈ keysA l := by
  induction l with
  | nil => simp [lookupA, keysA]
  | cons p rest ih =>
    unfold lookupA
    by_cases hpk : p.1 = k
    · have hk : (p.1 == k) = true := by simpa using hpk
      simp [hk, keysA, hpk]
    · have hk : (p.1 == k) = false := by simpa using hpk
      simp only [hk, Bool.false_eq_true, if_false, keysA, List.map_cons, List.mem_cons]
      rw [show (List.map (fun p => p.1) rest : List String) = keysA rest from rfl]
      rw [ih]
      constructor
      · intro h; right; exact h
      · intro h
        rcases h with h | h
        · exact absurd h.symm hpk
        · exact h

theorem lookupA_mem {α : Type} (l : List (String × α)) (k : String) (v : α)
    (h : lookupA l k = some v) : (k, v) ∈ l := by
  induction l with
  | nil => cases h
  | cons p rest ih =>
    unfold lookupA at h
    by_cases hk : (p.1 == k) = true
    · rw [if_pos hk] at h
      cases h
      have hpk : p.1 = k := by simpa using hk
      rw [← hpk]
      exact List.mem_cons_self p rest
    · rw [if_neg hk] at h
      exact List.mem_cons_of_mem p (ih h)

theorem mem_lookupA {α : Type} (l : List (String × α)) (k : String) (v : α)
    (hnd : (keysA l).Nodup) (h : (k, v) ∈ l) : lookupA l k = some v := by
  induction l with
  | nil => cases h
  | cons p rest ih =>
    rw [keysA, List.map_cons, List.nodup_cons] at hnd
    unfold lookupA
    rcases List.mem_cons.mp h with he | he
    · rw [← he]
      simp
    · by_cases hk : (p.1 == k) = true
      · exfalso
        have hpk : p.1 = k := by simpa using hk
        apply hnd.1
        rw [hpk]
        exact List.mem_map_of_mem (fun q => q.1) he
      · rw [if_neg hk]
        exact ih hnd.2 he

theorem entry_eq_of_nodup {α : Type} (l : List (String × α)) (p q : String × α)
    (hnd : (keysA l).Nodup) (hp : p ∈ l) (hq : q ∈ l) (hk : p.1 = q.1) : p = q := by
  have h1 := mem_lookupA l p.1 p.2 hnd hp
  have h2 := mem_lookupA l q.1 q.2 hnd hq
  rw [hk] at h1
  rw [h1] at h2
  injection h2 with h3
  exact Prod.ext hk h3

theorem keysA_insertA {α : Type} (l : List (String × α)) (k : String) (v : α) :
    keysA (insertA l k v) = if k ∈ keysA l then keysA l else keysA l ++ [k] := by
  induction l with
  | nil => simp [insertA, keysA]
  | cons p rest ih =>
    by_cases hpk : p.1 = k
    · have hk : (p.1 == k) = true := by simpa using hpk
      rw [show insertA (p :: rest) k v = (k, v) :: rest from by unfold insertA; rw [if_pos hk]]
      rw [show keysA ((k, v) :: rest) = k :: keysA rest from rfl]
      rw [show keysA (p :: rest) = p.1 :: keysA rest from rfl]
      rw [hpk]
      rw [if_pos (List.mem_cons_self k (keysA rest))]
    · have hk : (p.1 == k) = false := by simpa using hpk
      rw [show insertA (p :: rest) k v = p :: insertA rest k v from by
        simp only [insertA]; rw [if_neg (by simp [hpk])]]
      rw [show keysA (p :: insertA rest k v) = p.1 :: keysA (insertA rest k v) from rfl]
      rw [show keysA (p :: rest) = p.1 :: keysA rest from rfl]
      rw [ih]
      by_cases hm : k ∈ keysA rest
      · rw [if_pos hm, if_pos (List.mem_cons_of_mem p.1 hm)]
      · rw [if_neg hm]
        rw [if_neg (by
          intro hc
          rcases List.mem_cons.mp hc with hc | hc
          · exact hpk hc.symm
          · exact hm hc)]
        rfl

theorem insertA_keys_mem {α : Type} (l : List (String × α)) (k : String) (v : α) (x : String) :
    x ∈ keysA (insertA l k v) ↔ x ∈ keysA l ∨ x = k := by
  rw [keysA_insertA]
  by_cases hm : k ∈ keysA l
  · rw [if_pos hm]
    constructor
    · intro h; left; exact h
    · intro h
      rcases h with h | h
      · exact h
      · rw [h]; exact hm
  · rw [if_neg hm]
    rw [List.mem_append]
    simp

theorem insertA_nodup {α : Type} (l : List (String × α)) (k : String) (v : α)
    (hnd : (keysA l).Nodup) : (keysA (insertA l k v)).Nodup := by
  rw [keysA_insertA]
  by_cases hm : k ∈ keysA l
  · rw [if_pos hm]; exact hnd
  · rw [if_neg hm]
    rw [List.nodup_append]
    exact ⟨hnd, List.nodup_singleton k, by simpa using hm⟩

theorem insertA_entry_src {α : Type} (l : List (String × α)) (k : String) (v : α)
    (p : String × α) (h : p ∈ insertA l k v) : p ∈ l ∨ p = (k, v) := by
  induction l with
  | nil =>
    unfold insertA at h
    simp at h
    right
    rw [h]
  | cons q rest ih =>
    unfold insertA at h
    by_cases hk : (q.1 == k) = true
    · rw [if_pos hk] at h
      rcases List.mem_cons.mp h with he | he
      · right; exact he
      · left; exact List.mem_cons_of_mem q he
    · rw [if_neg hk] at h
      rcases List.mem_cons.mp h with he | he
      · left; rw [he]; exact List.mem_cons_self q rest
      · rcases ih he with h2 | h2
        · left; exact List.mem_cons_of_mem q h2
        · right; exact h2

theorem eraseA_mem {α : Type} (l : List (String × α)) (k : String) (p : String × α) :
    p ∈ eraseA l k ↔ p ∈ l ∧ ¬ p.1 = k := by
  unfold eraseA
  rw [List.mem_filter]
  simp

theorem keysA_eraseA {α : Type} (l : List (String × α)) (k : String) :
    keysA (eraseA l k) = (keysA l).filter (fun x => x != k) := by
  induction l with
  | nil => rfl
  | cons p rest ih =>
    by_cases hk : (p.1 != k) = true
    · rw [show eraseA (p :: rest) k = p :: eraseA rest k from by
        unfold eraseA; rw [List.filter_cons, if_pos hk]]
      rw [show keysA (p :: eraseA rest k) = p.1 :: keysA (eraseA rest k) from rfl]
      rw [show keysA (p :: rest) = p.1 :: keysA rest from rfl]
      rw [List.filter_cons, if_pos hk, ih]
    · rw [show eraseA (p :: rest) k = eraseA rest k from by
        unfold eraseA; rw [List.filter_cons, if_neg hk]]
      rw [show keysA (p :: rest) = p.1 :: keysA rest from rfl]
      rw [List.filter_cons, if_neg hk, ih]

theorem keysA_filter_sublist {α : Type} (l : List (String × α)) (q : String × α → Bool) :
    List.Sublist (keysA (l.filter q)) (keysA l) := by
  unfold keysA
  exact (List.filter_sublist l).map (fun p => p.1)

theorem lookupA_filter {α : Type} (l : List (String × α)) (q : String × α → Bool)
    (k : String) (hnd : (keysA l).Nodup) :
    lookupA (l.filter q) k =
      match lookupA l k with
      | some v => if q (k, v) then some v else none
      | none => none := by
  have hndf : (keysA (l.filter q)).Nodup := (keysA_filter_sublist l q).nodup hnd
  cases hlk : lookupA l k with
  | none =>
    have hk : ¬ k ∈ keysA l := by
      rw [← lookupA_isSome_iff, hlk]
      simp
    cases hf : lookupA (l.filter q) k with
    | none => rfl
    | some w =>
      exfalso
      apply hk
      have := (lookupA_isSome_iff (l.filter q) k).mp (by rw [hf]; rfl)
      exact (keysA_filter_sublist l q).mem this
  | some v =>
    show lookupA (l.filter q) k = if q (k, v) then some v else none
    have hmem : (k, v) ∈ l := lookupA_mem l k v hlk
    by_cases hq : q (k, v) = true
    · rw [if_pos hq]
      have : (k, v) ∈ l.filter q := List.mem_filter.mpr ⟨hmem, hq⟩
      exact mem_lookupA _ k v hndf this
    · rw [if_neg hq]
      cases hf : lookupA (l.filter q) k with
      | none => rfl
      | some w =>
        exfalso
        have hw : (k, w) ∈ l.filter q := lookupA_mem _ k w hf
        rw [List.mem_filter] at hw
        have : ((k, v) : String × α) = (k, w) :=
          entry_eq_of_nodup l _ _ hnd hmem hw.1 rfl
        injection this with h1 h2
        rw [← h2] at hw
        exact hq hw.2

theorem pendFold_mono (m1 : List (String × List String)) :
    ∀ (ds acc : List String) (x : String), x ∈ acc →
      x ∈ ds.foldl
        (fun p d => if p.contains d || (lookupA m1 d).isSome then p else p ++ [d]) acc := by
  intro ds
  induction ds with
  | nil => intro acc x hx; exact hx
  | cons d rest ih =>
    intro acc x hx
    rw [List.foldl_cons]
    apply ih
    split
    · exact hx
    · exact List.mem_append_left _ hx

theorem pendFold_covers (m1 : List (String × List String)) :
    ∀ (ds acc : List String) (d : String), d ∈ ds →
      d ∈ ds.foldl
          (fun p d => if p.contains d || (lookupA m1 d).isSome then p else p ++ [d]) acc ∨
        (lookupA m1 d).isSome := by
  intro ds
  induction ds with
  | nil => intro acc d hd; cases hd
  | cons e rest ih =>
    intro acc d hd
    rw [List.foldl_cons]
    rcases List.mem_cons.mp hd with he | he
    · subst he
      by_cases hc : (acc.contains d || (lookupA m1 d).isSome) = true
      · rcases Bool.or_eq_true_iff.mp hc with h | h
        · left
          rw [if_pos hc]
          exact pendFold_mono m1 rest acc d (by simpa using h)
        · right; exact h
      · left
        rw [if_neg hc]
        exact pendFold_mono m1 rest _ d (List.mem_append_right _ (List.mem_singleton.mpr rfl))
    · exact ih _ d he

theorem pendFold_src (m1 : List (String × List String)) (P : String → Prop) :
    ∀ (ds acc : List String), (∀ x ∈ acc, P x) → (∀ d ∈ ds, P d) →
      ∀ x ∈ ds.foldl
        (fun p d => if p.contains d || (lookupA m1 d).isSome then p else p ++ [d]) acc, P x := by
  intro ds
  induction ds with
  | nil => intro acc ha _ x hx; exact ha x hx
  | cons e rest ih =>
    intro acc ha hd x hx
    rw [List.foldl_cons] at hx
    refine ih _ ?_ (fun d hdm => hd d (List.mem_cons_of_mem e hdm)) x hx
    intro y hy
    split at hy
    · exact ha y hy
    · rcases List.mem_append.mp hy with h | h
      · exact ha y h
      · rw [List.mem_singleton.mp h]
        exact hd e (List.mem_cons_self e rest)

theorem collect_vals (deps : String → List String) :
    ∀ (fuel : Nat) (pending : List String) (m out : List (String × List String)),
      collectMapping deps fuel pending m = some out →
      (∀ p ∈ m, p.2 = deps p.1) → ∀ p ∈ out, p.2 = deps p.1 := by
  intro fuel
  induction fuel with
  | zero =>
    intro pending m out h hv
    cases pending with
    | nil => cases h; exact hv
    | cons a rest => cases h
  | succ fuel ih =>
    intro pending m out h hv
    cases pending with
    | nil => cases h; exact hv
    | cons current rest =>
      refine ih _ _ out h ?_
      intro p hp
      rcases insertA_entry_src m current (deps current) p hp with h2 | h2
      · exact hv p h2
      · rw [h2]

theorem collect_keys_grow (deps : String → List String) :
    ∀ (fuel : Nat) (pending : List String) (m out : List (String × List String)),
      collectMapping deps fuel pending m = some out →
      ∀ x, (x ∈ pending ∨ x ∈ keysA m) → x ∈ keysA out := by
  intro fuel
  induction fuel with
  | zero =>
    intro pending m out h x hx
    cases pending with
    | nil =>
      cases h
      rcases hx with hx | hx
      · cases hx
      · exact hx
    | cons a rest => cases h
  | succ fuel ih =>
    intro pending m out h x hx
    cases pending with
    | nil =>
      cases h
      rcases hx with hx | hx
      · cases hx
      · exact hx
    | cons current rest =>
      refine ih _ _ out h x ?_
      rcases hx with hx | hx
      · rcases List.mem_cons.mp hx with he | he
        · right
          rw [insertA_keys_mem]
          right
          exact he
        · left
          exact pendFold_mono _ _ rest x he
      · right
        rw [insertA_keys_mem]
        left
        exact hx

theorem collect_nodup (deps : String → List String) :
    ∀ (fuel : Nat) (pending : List String) (m out : List (String × List String)),
      collectMapping deps fuel pending m = some out →
      (keysA m).Nodup → (keysA out).Nodup := by
  intro fuel
  induction fuel with
  | zero =>
    intro pending m out h hnd
    cases pending with
    | nil => cases h; exact hnd
    | cons a rest => cases h
  | succ fuel ih =>
    intro pending m out h hnd
    cases pending with
    | nil => cases h; exact hnd
    | cons current rest =>
      exact ih _ _ out h (insertA_nodup m current (deps current) hnd)

theorem collect_closed (deps : String → List String) :
    ∀ (fuel : Nat) (pending : List String) (m out : List (String × List String)),
      collectMapping deps fuel pending m = some out →
      (∀ p ∈ m, ∀ d ∈ deps p.1, (lookupA m d).isSome ∨ d ∈ pending) →
      ∀ p ∈ out, ∀ d ∈ deps p.1, (lookupA out d).isSome := by
  intro fuel
  induction fuel with
  | zero =>
    intro pending m out h hcl
    cases pending with
    | nil =>
      cases h
      intro p hp d hd
      rcases hcl p hp d hd with h2 | h2
      · exact h2
      · cases h2
    | cons a rest => cases h
  | succ fuel ih =>
    intro pending m out h hcl
    cases pending with
    | nil =>
      cases h
      intro p hp d hd
      rcases hcl p hp d hd with h2 | h2
      · exact h2
      · cases h2
    | cons current rest =>
      refine ih _ _ out h ?_
      intro p hp d hd
      have hsomeIns : ∀ y, (lookupA m y).isSome →
          (lookupA (insertA m current (deps current)) y).isSome := by
        intro y hy
        rw [lookupA_isSome_iff] at hy ⊢
        rw [insertA_keys_mem]
        left
        exact hy
      have hsomeCur : (lookupA (insertA m current (deps current)) current).isSome := by
        rw [lookupA_isSome_iff, insertA_keys_mem]
        right
        rfl
      rcases insertA_entry_src m current (deps current) p hp with h2 | h2
      · rcases hcl p h2 d hd with h3 | h3
        · left
          exact hsomeIns d h3
        · rcases List.mem_cons.mp h3 with he | he
          · rw [he]
            left
            exact hsomeCur
          · right
            exact pendFold_mono _ _ rest d he
      · rw [h2] at hd
        simp only at hd
        rcases pendFold_covers (insertA m current (deps current)) (deps current) rest d hd with
          h3 | h3
        · right; exact h3
        · left; exact h3

theorem collect_sound (deps : String → List String) (P : String → Prop)
    (hstep : ∀ x, P x → ∀ d ∈ deps x, P d) :
    ∀ (fuel : Nat) (pending : List String) (m out : List (String × List String)),
      collectMapping deps fuel pending m = some out →
      (∀ x ∈ pending, P x) → (∀ p ∈ m, P p.1) → ∀ p ∈ out, P p.1 := by
  intro fuel
  induction fuel with
  | zero =>
    intro pending m out h hp hm
    cases pending with
    | nil => cases h; exact hm
    | cons a rest => cases h
  | succ fuel ih =>
    intro pending m out h hp hm
    cases pending with
    | nil => cases h; exact hm
    | cons current rest =>
      have hcur : P current := hp current (List.mem_cons_self current rest)
      refine ih _ _ out h ?_ ?_
      · refine pendFold_src _ P (deps current) rest ?_ ?_
        · intro x hx
          exact hp x (List.mem_cons_of_mem current hx)
        · intro d hd
          exact hstep current hcur d hd
      · intro p hpm
        rcases insertA_entry_src m current (deps current) p hpm with h2 | h2
        · exact hm p h2
        · rw [h2]
          exact hcur

theorem mem_of_getLast?_eq {α : Type} {l : List α} {a : α} (h : l.getLast? = some a) :
    a ∈ l := by
  obtain ⟨hne, heq⟩ := List.mem_getLast?_eq_getLast (show a ∈ l.getLast? from h)
  rw [heq]
  exact List.getLast_mem hne

theorem insertSorted_perm {α : Type} (lt : α → α → Bool) (x : α) :
    ∀ l : List α, List.Perm (insertSorted lt x l) (x :: l) := by
  intro l
  induction l with
  | nil => exact List.Perm.refl _
  | cons y ys ih =>
    unfold insertSorted
    by_cases hlt : lt x y = true
    · rw [if_pos hlt]
    · rw [if_neg hlt]
      exact (ih.cons y).trans (List.Perm.swap x y ys)

theorem sortAssoc_perm {α : Type} (l : List (String × α)) :
    List.Perm (sortAssoc l) l := by
  induction l with
  | nil => exact List.Perm.refl _
  | cons p rest ih =>
    unfold sortAssoc at ih ⊢
    rw [List.foldr_cons]
    exact (insertSorted_perm _ p _).trans (ih.cons p)

theorem topo_append (deps : String → List String) (res : List String) (a : String)
    (hres : TopoSorted deps res) (ha : ∀ d ∈ deps a, d ∈ res) :
    TopoSorted deps (res ++ [a]) := by
  intro l1 x l2 heq d hd
  cases l2 with
  | nil =>
    have h1 : res = l1 := by
      have := congrArg List.dropLast heq
      rwa [List.dropLast_concat, List.dropLast_concat] at this
    have h2 : a = x := by
      have := congrArg List.getLast? heq
      rw [List.getLast?_concat, List.getLast?_concat] at this
      exact Option.some.inj this
    rw [← h1]
    exact ha d (by rw [h2]; exact hd)
  | cons b l2' =>
    have h1 : res = l1 ++ x :: (b :: l2').dropLast := by
      have := congrArg List.dropLast heq
      rw [List.dropLast_concat] at this
      rw [this]
      rw [List.dropLast_append_of_ne_nil l1 (by simp)]
      rw [List.dropLast_cons₂]
    exact hres l1 x ((b :: l2').dropLast) h1 d hd

theorem lastNotDep (deps : String → List String) (r : List String)
    (htopo : TopoSorted deps r) (hnd : r.Nodup) :
    ∀ y ∈ r, ∀ d ∈ deps y, r.getLast? ≠ some d := by
  intro y hy d hd hlast
  obtain ⟨l1, l2, heq⟩ := List.append_of_mem hy
  have hd1 : d ∈ l1 := htopo l1 y l2 heq d hd
  have hd2 : d ∈ y :: l2 := by
    rw [heq] at hlast
    rw [List.getLast?_append_cons] at hlast
    exact mem_of_getLast?_eq hlast
  rw [heq] at hnd
  exact (List.disjoint_of_nodup_append hnd) hd1 hd2

theorem sortPass_cons (e : String × List String) (s : List (String × List String))
    (start : List String × List (String × List String)) :
    sortPass (e :: s) start = sortPass s (passStep start e) := rfl

theorem sortPass_inv (deps : String → List String) (m0 : List (String × List String))
    (hv : ∀ p ∈ m0, p.2 = deps p.1) :
    ∀ (snap : List (String × List String)) (res : List String)
      (map : List (String × List String)),
      (res ++ keysA map).Nodup →
      (∀ p ∈ map, p ∈ m0) →
      TopoSorted deps res →
      (∀ e ∈ snap, lookupA map e.1 = some e.2) →
      (keysA snap).Nodup →
      ((sortPass snap (res, map)).1 ++ keysA (sortPass snap (res, map)).2).Nodup ∧
      (∀ x, (x ∈ (sortPass snap (res, map)).1 ∨ x ∈ keysA (sortPass snap (res, map)).2) ↔
        (x ∈ res ∨ x ∈ keysA map)) ∧
      (∀ p ∈ (sortPass snap (res, map)).2, p ∈ m0) ∧
      TopoSorted deps (sortPass snap (res, map)).1 := by
  intro snap
  induction snap with
  | nil =>
    intro res map hnd hsub htopo _ _
    exact ⟨hnd, fun x => Iff.rfl, hsub, htopo⟩
  | cons e snap' ih =>
    intro res map hnd hsub htopo hsnap hsnd
    rw [sortPass_cons]
    have hsnd' : (keysA snap').Nodup := by
      rw [keysA, List.map_cons, List.nodup_cons] at hsnd
      exact hsnd.2
    have hkm : (keysA map).Nodup := List.Nodup.of_append_right hnd
    by_cases hcond : (e.2.all (fun d => res.contains d)) = true
    · have hpass : passStep (res, map) e = (res ++ [e.1], eraseA map e.1) := by
        unfold passStep
        rw [if_pos hcond]
      rw [hpass]
      have he := hsnap e (List.mem_cons_self e snap')
      have hmem_e : e ∈ map := by
        have := lookupA_mem map e.1 e.2 he
        simpa using this
      have hem0 : e ∈ m0 := hsub e hmem_e
      have he1 : e.1 ∈ keysA map := List.mem_map_of_mem (fun p => p.1) hmem_e
      have hkeyperm : List.Perm (keysA map) (e.1 :: keysA (eraseA map e.1)) := by
        rw [keysA_eraseA]
        rw [show ((keysA map).filter (fun x => x != e.1)) = (keysA map).erase e.1 from
          (List.Nodup.erase_eq_filter hkm e.1).symm]
        exact List.perm_cons_erase he1
      have hnd2 : ((res ++ [e.1]) ++ keysA (eraseA map e.1)).Nodup := by
        have hperm : List.Perm (res ++ keysA map)
            ((res ++ [e.1]) ++ keysA (eraseA map e.1)) := by
          rw [List.append_assoc, List.singleton_append]
          exact hkeyperm.append_left res
        exact hperm.nodup hnd
      have hiff : ∀ x, (x ∈ res ++ [e.1] ∨ x ∈ keysA (eraseA map e.1)) ↔
          (x ∈ res ∨ x ∈ keysA map) := by
        intro x
        rw [List.mem_append, List.mem_singleton, keysA_eraseA, List.mem_filter]
        constructor
        · intro h
          rcases h with (h | h) | h
          · left; exact h
          · right; rw [h]; exact he1
          · right; exact h.1
        · intro h
          rcases h with h | h
          · left; left; exact h
          · by_cases hx : x = e.1
            · left; right; exact hx
            · right
              exact ⟨h, by simpa using hx⟩
      have hsub2 : ∀ p ∈ eraseA map e.1, p ∈ m0 := by
        intro p hp
        exact hsub p ((eraseA_mem map e.1 p).mp hp).1
      have htopo2 : TopoSorted deps (res ++ [e.1]) := by
        refine topo_append deps res e.1 htopo ?_
        intro d hd
        rw [← hv e hem0] at hd
        rw [List.all_eq_true] at hcond
        simpa using hcond d hd
      have hsnap2 : ∀ e' ∈ snap', lookupA (eraseA map e.1) e'.1 = some e'.2 := by
        intro e' he'
        have hne : ¬ e'.1 = e.1 := by
          rw [keysA, List.map_cons, List.nodup_cons] at hsnd
          intro hc
          apply hsnd.1
          rw [← hc]
          exact List.mem_map_of_mem (fun p => p.1) he'
        rw [show eraseA map e.1 = map.filter (fun p => p.1 != e.1) from rfl]
        rw [lookupA_filter map _ e'.1 hkm]
        rw [hsnap e' (List.mem_cons_of_mem e he')]
        simp [hne]
      obtain ⟨c1, c2, c3, c4⟩ :=
        ih (res ++ [e.1]) (eraseA map e.1) hnd2 hsub2 htopo2 hsnap2 hsnd'
      refine ⟨c1, ?_, c3, c4⟩
      intro x
      rw [c2 x]
      exact hiff x
    · have hpass : passStep (res, map) e = (res, map) := by
        unfold passStep
        rw [if_neg hcond]
      rw [hpass]
      exact ih res map hnd hsub htopo
        (fun e' he' => hsnap e' (List.mem_cons_of_mem e he')) hsnd'

theorem sortLoop_inv (deps : String → List String) (m0 : List (String × List String))
    (hv : ∀ p ∈ m0, p.2 = deps p.1) :
    ∀ (fuel : Nat) (map : List (String × List String)) (res r : List String),
      (res ++ keysA map).Nodup →
      (∀ p ∈ map, p ∈ m0) →
      TopoSorted deps res →
      sortLoop fuel map res = .ok r →
      r.Nodup ∧ (∀ x, x ∈ r ↔ (x ∈ res ∨ x ∈ keysA map)) ∧ TopoSorted deps r := by
  intro fuel
  induction fuel with
  | zero =>
    intro map res r hnd hsub htopo h
    cases map with
    | nil =>
      cases h
      exact ⟨by simpa [keysA] using hnd, by simp [keysA], htopo⟩
    | cons p rest => cases h
  | succ fuel ih =>
    intro map res r hnd hsub htopo h
    cases map with
    | nil =>
      cases h
      exact ⟨by simpa [keysA] using hnd, by simp [keysA], htopo⟩
    | cons p rest =>
      simp only [sortLoop] at h
      have hkm : (keysA (p :: rest)).Nodup := List.Nodup.of_append_right hnd
      have hsnapl : ∀ e ∈ sortAssoc (p :: rest), lookupA (p :: rest) e.1 = some e.2 := by
        intro e he
        have hem : e ∈ (p :: rest) := (sortAssoc_perm (p :: rest)).mem_iff.mp he
        have := mem_lookupA (p :: rest) e.1 e.2 hkm (by simpa using hem)
        exact this
      have hsndk : (keysA (sortAssoc (p :: rest))).Nodup := by
        have q : List.Perm (keysA (p :: rest)) (keysA (sortAssoc (p :: rest))) := by
          unfold keysA
          exact ((sortAssoc_perm (p :: rest)).map (fun e => e.1)).symm
        exact q.nodup hkm
      obtain ⟨c1, c2, c3, c4⟩ :=
        sortPass_inv deps m0 hv (sortAssoc (p :: rest)) res (p :: rest)
          hnd hsub htopo hsnapl hsndk
      by_cases hlen :
          ((sortPass (sortAssoc (p :: rest)) (res, p :: rest)).2.length =
            (p :: rest).length)
      · rw [if_pos hlen] at h
        cases h
      · rw [if_neg hlen] at h
        obtain ⟨d1, d2, d3⟩ := ih _ _ r c1 c3 c4 h
        refine ⟨d1, ?_, d3⟩
        intro x
        rw [d2 x, c2 x]

theorem dependency_sort_facts (deps : String → List String) (fuel : Nat) (c : String)
    (r : List String) (h : dependency_sort fuel [c] deps = .ok r) :
    r.Nodup ∧
    (∀ x, x ∈ r ↔ Relation.ReflTransGen (fun a b => b ∈ deps a) c x) ∧
    TopoSorted deps r ∧
    r.getLast? = some c := by
  unfold dependency_sort at h
  cases hcol : collectMapping deps fuel [c] [] with
  | none => rw [hcol] at h; cases h
  | some m =>
    rw [hcol] at h
    have hvals : ∀ p ∈ m, p.2 = deps p.1 :=
      collect_vals deps fuel [c] [] m hcol (by intro p hp; cases hp)
    have hck : c ∈ keysA m :=
      collect_keys_grow deps fuel [c] [] m hcol c (Or.inl (List.mem_singleton.mpr rfl))
    have hnd : (keysA m).Nodup :=
      collect_nodup deps fuel [c] [] m hcol (by simp [keysA])
    have hclosed : ∀ p ∈ m, ∀ d ∈ deps p.1, (lookupA m d).isSome :=
      collect_closed deps fuel [c] [] m hcol (by intro p hp; cases hp)
    have hsound : ∀ p ∈ m, Relation.ReflTransGen (fun a b => b ∈ deps a) c p.1 := by
      refine collect_sound deps (Relation.ReflTransGen (fun a b => b ∈ deps a) c)
        (fun x hx d hd => hx.tail hd) fuel [c] [] m hcol ?_ ?_
      · intro x hx
        rw [List.mem_singleton.mp hx]
      · intro p hp; cases hp
    have hcomplete : ∀ x, Relation.ReflTransGen (fun a b => b ∈ deps a) c x →
        x ∈ keysA m := by
      intro x hx
      induction hx with
      | refl => exact hck
      | tail h1 h2 ih =>
        rw [← lookupA_isSome_iff] at ih
        cases hl : lookupA m _ with
        | none => rw [hl] at ih; cases ih
        | some v =>
          have hment := lookupA_mem m _ v hl
          have := hclosed _ hment _ h2
          rw [lookupA_isSome_iff] at this
          exact this
    have htopo0 : TopoSorted deps [] := by
      intro l1 x l2 heq d hd
      exfalso
      have := congrArg List.length heq
      simp at this
      omega
    obtain ⟨d1, d2, d3⟩ :=
      sortLoop_inv deps m hvals (m.length + 1) m [] r
        (by simpa [keysA] using hnd) (fun p hp => hp) htopo0 h
    have hmemiff : ∀ x, x ∈ r ↔ Relation.ReflTransGen (fun a b => b ∈ deps a) c x := by
      intro x
      rw [d2 x]
      constructor
      · intro hx
        rcases hx with hx | hx
        · cases hx
        · obtain ⟨p, hp, hpx⟩ := List.mem_map.mp hx
          rw [← hpx]
          exact hsound p hp
      · intro hx
        right
        exact hcomplete x hx
    refine ⟨d1, hmemiff, d3, ?_⟩
    have hcr : c ∈ r := (hmemiff c).mpr Relation.ReflTransGen.refl
    cases hl : r.getLast? with
    | none =>
      rw [List.getLast?_eq_none_iff] at hl
      rw [hl] at hcr
      cases hcr
    | some z =>
      have hzr : z ∈ r := mem_of_getLast?_eq hl
      have hz := (hmemiff z).mp hzr
      rcases Relation.ReflTransGen.cases_tail hz with he | ⟨y, hy1, hy2⟩
      · rw [he]
      · exfalso
        have hyr : y ∈ r := (hmemiff y).mpr hy1
        exact lastNotDep deps r d3 d1 y hyr z hy2 hl

theorem dependency_sort_no_cycle (deps : String → List String) (fuel : Nat) (c : String)
    (r : List String) (h : dependency_sort fuel [c] deps = .ok r) :
    ¬ Relation.TransGen (fun a b => b ∈ deps a) c c := by
  obtain ⟨d1, d2, d3, d4⟩ := dependency_sort_facts deps fuel c r h
  intro hcyc
  obtain ⟨y, hy1, hy2⟩ := (Relation.TransGen.tail'_iff).mp hcyc
  have hyr : y ∈ r := (d2 y).mpr hy1
  exact lastNotDep deps r d3 d1 y hyr c hy2 d4

theorem dependency_sort_dropLast (deps : String → List String) (fuel : Nat) (c : String)
    (r : List String) (h : dependency_sort fuel [c] deps = .ok r) :
    ∀ x, x ∈ r.dropLast ↔ Relation.TransGen (fun a b => b ∈ deps a) c x := by
  obtain ⟨d1, d2, d3, d4⟩ := dependency_sort_facts deps fuel c r h
  have hsplit : r.dropLast ++ [c] = r := List.dropLast_append_getLast? c d4
  have hcnot : ¬ c ∈ r.dropLast := by
    intro hc
    have : (r.dropLast ++ [c]).Nodup := by rw [hsplit]; exact d1
    rw [List.nodup_append] at this
    exact this.2.2 hc (List.mem_singleton.mpr rfl)
  intro x
  constructor
  · intro hx
    have hxr : x ∈ r := by
      rw [← hsplit]
      exact List.mem_append_left _ hx
    have hrtg := (d2 x).mp hxr
    rcases (Relation.reflTransGen_iff_eq_or_transGen).mp hrtg with he | ht
    · exfalso
      rw [he] at hx
      exact hcnot hx
    · exact ht
  · intro hx
    have hxr : x ∈ r := (d2 x).mpr hx.to_reflTransGen
    have hxc : ¬ x = c := by
      intro he
      rw [he] at hx
      exact dependency_sort_no_cycle deps fuel c r h hx
    rw [← hsplit] at hxr
    rcases List.mem_append.mp hxr with h2 | h2
    · exact h2
    · exact absurd (List.mem_singleton.mp h2) hxc

theorem riFold_false (dd : List String) (ic : String) :
    ∀ (l : Formation) (gacc : ContainerGraph) (acc : Formation) (ord : List String),
      l.foldl (riStep dd ic false) (gacc, acc, ord) =
        (gacc,
         acc.filter (fun q =>
           !(((l.filter (fun p => dd.contains p.2.container && p.2.formation)).map
               (fun p => p.1)).contains q.1)),
         ord ++ (l.filter (fun p => dd.contains p.2.container && p.2.formation)).map
           (fun p => p.1)) := by
  intro l
  induction l with
  | nil =>
    intro gacc acc ord
    simp
  | cons p l' ih =>
    intro gacc acc ord
    rw [List.foldl_cons]
    by_cases hcond : (dd.contains p.2.container && p.2.formation) = true
    · have hstep : riStep dd ic false (gacc, acc, ord) p =
          (gacc, eraseA acc p.1, ord ++ [p.1]) := by
        unfold riStep
        rw [if_pos hcond]
        rw [if_neg (by simp)]
      rw [hstep, ih]
      rw [List.filter_cons, if_pos hcond, List.map_cons]
      refine congrArg (Prod.mk gacc) (Prod.ext ?_ ?_)
      · show (eraseA acc p.1).filter _ = _
        rw [show eraseA acc p.1 = acc.filter (fun q => q.1 != p.1) from rfl]
        rw [List.filter_filter]
        refine List.filter_congr ?_
        intro q _
        simp only [List.contains_cons, Bool.not_or, bne]
        rw [Bool.and_comm]
      · show ord ++ [p.1] ++ _ = ord ++ (p.1 :: _)
        rw [List.append_assoc]
        rfl
    · have hstep : riStep dd ic false (gacc, acc, ord) p = (gacc, acc, ord) := by
        unfold riStep
        rw [if_neg hcond]
      rw [hstep, ih]
      rw [List.filter_cons, if_neg hcond]

theorem dependents_edge_iff (g : ContainerGraph) (hg : (keysA g.rdeps).Nodup)
    (a b : String) : b ∈ dependentsOf g a ↔ a ∈ dependenciesOf g b := by
  unfold dependentsOf dependenciesOf
  constructor
  · intro h
    obtain ⟨p, hp, hpb⟩ := List.mem_map.mp h
    rw [List.mem_filter] at hp
    have hlk := mem_lookupA g.rdeps p.1 p.2 hg (by simpa using hp.1)
    rw [hpb] at hlk
    rw [hlk]
    simpa using hp.2
  · intro h
    cases hl : lookupA g.rdeps b with
    | none =>
      rw [hl] at h
      simp at h
    | some v =>
      rw [hl] at h
      simp at h
      refine List.mem_map.mpr ⟨(b, v), ?_, rfl⟩
      rw [List.mem_filter]
      refine ⟨lookupA_mem _ _ _ hl, by simpa using h⟩

theorem transDepends_of_dependents (g : ContainerGraph) (hg : (keysA g.rdeps).Nodup)
    (a b : String) :
    Relation.TransGen (fun x y => y ∈ dependentsOf g x) a b ↔ TransDepends g a b := by
  unfold TransDepends
  constructor
  · exact Relation.TransGen.mono (fun x y h => (dependents_edge_iff g hg x y).mp h)
  · exact Relation.TransGen.mono (fun x y h => (dependents_edge_iff g hg x y).mpr h)

/-- Claim C2: `remove_instance(i, ignore_dependencies := False)` removes
`i` together with exactly the instances whose container transitively
depends on the container of `i`, leaves every other entry of the
formation unchanged (and does not touch the graph), and deletes `i`
itself last. -/
theorem C2_remove_instance_cascades
    (fuel : Nat) (g : ContainerGraph) (f : Formation) (inst : ContainerInstance)
    (g2 : ContainerGraph) (f2 : Formation) (order : List String)
    (hg : (keysA g.rdeps).Nodup)
    (hfk : (keysA f).Nodup)
    (hwf : ∀ p ∈ f, p.2.formation = true)
    (hmem : lookupA f inst.name = some inst)
    (hout : remove_instance fuel g f inst false = .ok (g2, f2, order)) :
    g2 = g ∧
    (∀ (n : String) (i : ContainerInstance),
      lookupA f2 n = some i ↔
        (lookupA f n = some i ∧ ¬ TransDepends g inst.container i.container ∧
          ¬ n = inst.name)) ∧
    order.getLast? = some inst.name := by
  unfold remove_instance at hout
  cases hs : dependency_sort fuel [inst.container] (dependentsOf g) with
  | error e => rw [hs, exbind_err] at hout; cases hout
  | ok r =>
    rw [hs, exbind_ok] at hout
    rw [riFold_false r.dropLast inst.container f g f []] at hout
    have hdd := dependency_sort_dropLast (dependentsOf g) fuel inst.container r hs
    have hnocyc := dependency_sort_no_cycle (dependentsOf g) fuel inst.container r hs
    have hddiff : ∀ x, (r.dropLast.contains x) = true ↔ TransDepends g inst.container x := by
      intro x
      rw [show (r.dropLast.contains x = true) ↔ x ∈ r.dropLast from by simp]
      rw [hdd x]
      exact transDepends_of_dependents g hg inst.container x
    have hcond_iff : ∀ p, p ∈ f →
        ((r.dropLast.contains p.2.container && p.2.formation) = true ↔
          TransDepends g inst.container p.2.container) := by
      intro p hp
      rw [hwf p hp]
      rw [Bool.and_true]
      exact hddiff p.2.container
    have hinstf : (inst.name, inst) ∈ f := lookupA_mem f inst.name inst hmem
    have hinstcond : (r.dropLast.contains inst.container && inst.formation) = false := by
      cases hc : (r.dropLast.contains inst.container && inst.formation) with
      | false => rfl
      | true =>
        exfalso
        apply hnocyc
        have := (hcond_iff (inst.name, inst) hinstf).mp hc
        rw [← transDepends_of_dependents g hg] at this
        exact this
    have hQ : ∀ (n : String) (i : ContainerInstance), (n, i) ∈ f →
        ((((f.filter (fun p => r.dropLast.contains p.2.container && p.2.formation)).map
            (fun p => p.1)).contains n) = true ↔
          TransDepends g inst.container i.container) := by
      intro n i hni
      rw [show ((((f.filter (fun p => r.dropLast.contains p.2.container && p.2.formation)).map
            (fun p => p.1)).contains n) = true) ↔
          n ∈ ((f.filter (fun p => r.dropLast.contains p.2.container && p.2.formation)).map
            (fun p => p.1)) from by simp]
      constructor
      · intro h
        obtain ⟨p, hp, hpn⟩ := List.mem_map.mp h
        rw [List.mem_filter] at hp
        have hpe : p = (n, i) := entry_eq_of_nodup f p (n, i) hfk hp.1 hni hpn
        rw [hpe] at hp
        exact (hcond_iff (n, i) hni).mp hp.2
      · intro h
        refine List.mem_map.mpr ⟨(n, i), ?_, rfl⟩
        rw [List.mem_filter]
        exact ⟨hni, (hcond_iff (n, i) hni).mpr h⟩
    have hnotc : (((f.filter (fun p =>
        r.dropLast.contains p.2.container && p.2.formation)).map
        (fun p => p.1)).contains inst.name) = false := by
      cases hc : (((f.filter (fun p =>
          r.dropLast.contains p.2.container && p.2.formation)).map
          (fun p => p.1)).contains inst.name) with
      | false => rfl
      | true =>
        exfalso
        apply hnocyc
        have := (hQ inst.name inst hinstf).mp hc
        rw [← transDepends_of_dependents g hg] at this
        exact this
    have hsurv : lookupA
        (f.filter (fun q =>
          !(((f.filter (fun p => r.dropLast.contains p.2.container && p.2.formation)).map
              (fun p => p.1)).contains q.1))) inst.name = some inst := by
      rw [lookupA_filter f _ inst.name hfk, hmem]
      show (if (!(((f.filter (fun p =>
          r.dropLast.contains p.2.container && p.2.formation)).map
          (fun p => p.1)).contains inst.name)) = true then some inst else none) = some inst
      rw [hnotc]
      rfl
    rw [if_pos (by rw [hsurv]; rfl)] at hout
    have hg2 : g2 = g := by cases hout; rfl
    have hf2 : f2 = eraseA
        (f.filter (fun q =>
          !(((f.filter (fun p => r.dropLast.contains p.2.container && p.2.formation)).map
              (fun p => p.1)).contains q.1))) inst.name := by
      cases hout; rfl
    have hord : order =
        (f.filter (fun p => r.dropLast.contains p.2.container && p.2.formation)).map
          (fun p => p.1) ++ [inst.name] := by
      cases hout; rfl
    refine ⟨hg2, ?_, by rw [hord, List.getLast?_concat]⟩
    intro n i
    rw [hf2]
    rw [show eraseA
        (f.filter (fun q =>
          !(((f.filter (fun p => r.dropLast.contains p.2.container && p.2.formation)).map
              (fun p => p.1)).contains q.1))) inst.name =
        (f.filter (fun q =>
          !(((f.filter (fun p => r.dropLast.contains p.2.container && p.2.formation)).map
              (fun p => p.1)).contains q.1))).filter (fun q => q.1 != inst.name) from rfl]
    rw [List.filter_filter]
    rw [lookupA_filter f _ n hfk]
    cases hln : lookupA f n with
    | none =>
      constructor
      · intro h; cases h
      · intro h
        cases h.1
    | some j =>
      have hnj : (n, j) ∈ f := lookupA_mem f n j hln
      show (if ((n != inst.name) &&
          !(((f.filter (fun p => r.dropLast.contains p.2.container && p.2.formation)).map
              (fun p => p.1)).contains n)) = true then some j else none) = some i ↔ _
      by_cases hc : ((n != inst.name) &&
          !(((f.filter (fun p => r.dropLast.contains p.2.container && p.2.formation)).map
              (fun p => p.1)).contains n)) = true
      · rw [if_pos hc]
        rw [Bool.and_eq_true] at hc
        constructor
        · intro h
          cases h
          refine ⟨rfl, ?_, ?_⟩
          · intro htd
            have := (hQ n i hnj).mpr htd
            rw [this] at hc
            simp at hc
          · intro hne
            have hb : ((n : String) != inst.name) = false := by simp [hne]
            rw [hb] at hc
            simp at hc
        · intro h
          exact h.1
      · rw [if_neg hc]
        constructor
        · intro h; cases h
        · intro h
          obtain ⟨h1, h2, h3⟩ := h
          cases h1
          exfalso
          apply hc
          rw [Bool.and_eq_true]
          constructor
          · simpa using h3
          · cases hcc : (((f.filter (fun p =>
                r.dropLast.contains p.2.container && p.2.formation)).map
                (fun p => p.1)).contains n) with
            | false => rfl
            | true => exact absurd ((hQ n i hnj).mp hcc) h2

/-- Claim C2 witness: the cascade theorem applied to a two-instance
formation where `web` depends on `db`: removing the `db` instance removes
the dependent `web` instance first and the `db` instance itself last, and
leaves the graph untouched. -/
theorem C2_witness :
    chainGraph = chainGraph ∧
    (["demo.web.1", "demo.db.1"] : List String).getLast? = some "demo.db.1" :=
  ⟨(C2_remove_instance_cascades 10 chainGraph
      [("demo.web.1",
        { name := "demo.web.1", container := "web", imageId := some "sha1",
          links := [("db", "demo.db.1")], devmodes := [], ports := [], environment := [],
          memLimit := 0, command := none, foreground := false, formation := true }),
       ("demo.db.1",
        { name := "demo.db.1", container := "db", imageId := some "sha2", links := [],
          devmodes := [], ports := [], environment := [], memLimit := 0, command := none,
          foreground := false, formation := true })]
      { name := "demo.db.1", container := "db", imageId := some "sha2", links := [],
        devmodes := [], ports := [], environment := [], memLimit := 0, command := none,
        foreground := false, formation := true }
      chainGraph [] ["demo.web.1", "demo.db.1"]
      (by decide) (by decide) (by decide) (by decide) (by decide)).1,
   (C2_remove_instance_cascades 10 chainGraph
      [("demo.web.1",
        { name := "demo.web.1", container := "web", imageId := some "sha1",
          links := [("db", "demo.db.1")], devmodes := [], ports := [], environment := [],
          memLimit := 0, command := none, foreground := false, formation := true }),
       ("demo.db.1",
        { name := "demo.db.1", container := "db", imageId := some "sha2", links := [],
          devmodes := [], ports := [], environment := [], memLimit := 0, command := none,
          foreground := false, formation := true })]
      { name := "demo.db.1", container := "db", imageId := some "sha2", links := [],
        devmodes := [], ports := [], environment := [], memLimit := 0, command := none,
        foreground := false, formation := true }
      chainGraph [] ["demo.web.1", "demo.db.1"]
      (by decide) (by decide) (by decide) (by decide) (by decide)).2.2⟩
